import Mathlib

/-!
Verification development for the feathers-elasticsearch query-translation
subsystem. The definitions below are a shallow embedding of:

* `src/utils/core.ts` (getType, validateType, removeProps),
* `src/utils/query-handlers/criteria.ts` (queryCriteriaMap, processCriteria, processTermQuery),
* `src/utils/query-handlers/special.ts` (the special-operator handlers),
* `src/utils/parse-query.ts` (parseQuery, the query cache, normalizeObject, hashQuery, cleanCache),
* `src/utils/security.ts` (sanitizeQueryString, calculateQueryComplexity).

JavaScript runtime values are modelled by the inductive type `JSVal`
(numbers as integers, plus distinguished NaN, null, undefined and
function values, arrays as lists, objects as ordered association lists).
Thrown `errors.BadRequest` exceptions are modelled with the `Except`
monad. The recursive translator is defined by structural recursion on an
explicit fuel argument; the wrapper `parseQueryRec` instantiates the fuel
with `maxDepth + 1 - currentDepth`, which is an exact bound because the
source increments `currentDepth` by one on every recursive call and
aborts as soon as `currentDepth > maxDepth`.
-/

namespace FeathersES

/-- JavaScript values as consumed and produced by the query translator. -/
inductive JSVal where
  | num (n : Int)
  | nan
  | str (s : String)
  | bool (b : Bool)
  | null
  | undefined
  | func
  | arr (elems : List JSVal)
  | obj (fields : List (String × JSVal))
deriving Repr

/-- Errors thrown by the translator; the translation pipeline only ever
throws `errors.BadRequest` (src/utils/core.ts line 35, parse-query.ts
line 145, security.ts sanitizeQueryString). -/
inductive JSErr where
  | badRequest (msg : String)
deriving Repr

/-- Embeds getType of src/utils/core.ts lines 9-13: arrays are classified
before the general object case, null distinctly from undefined, and a
numeric NaN as the kind NaN. -/
def getType : JSVal → String
  | .num _ => "number"
  | .nan => "NaN"
  | .str _ => "string"
  | .bool _ => "boolean"
  | .null => "null"
  | .undefined => "undefined"
  | .func => "function"
  | .arr _ => "array"
  | .obj _ => "object"

/-- JavaScript truthiness: false, 0, NaN, the empty string, null and
undefined are falsy; every object, array and function is truthy. -/
def truthy : JSVal → Bool
  | .num n => n != 0
  | .nan => false
  | .str s => s ≠ ""
  | .bool b => b
  | .null => false
  | .undefined => false
  | .func => true
  | .arr _ => true
  | .obj _ => true

/-- Property access `value[key]`: an absent key reads as undefined. Only
used by the handlers after they have asserted the value is an object. -/
def JSVal.getField : JSVal → String → JSVal
  | .obj fields, key =>
    match fields.lookup key with
    | some v => v
    | none => .undefined
  | _, _ => .undefined

/-- Error text of validateType (src/utils/core.ts lines 34-37). -/
def typeErrMsg (name : String) (validators : List String) (actual : String) : String :=
  let expected := String.intercalate " or " validators
  s!"Invalid type for \x27{name}\x27: expected {expected}, got \x27{actual}\x27"

/-- Embeds validateType of src/utils/core.ts lines 23-41: classify the
value and fail with a BadRequest naming the field and the expected and
actual kinds when the kind is not among the validators. -/
def validateType (value : JSVal) (name : String) (validators : List String) :
    Except JSErr String :=
  let type := getType value
  if validators.contains type then .ok type
  else .error (.badRequest (typeErrMsg name validators type))

/-- The bool-query accumulator (interface ESQuery, src/types.ts lines
196-202). A `some` field models a key that is present on the JavaScript
object (possibly holding an empty array); `none` models an absent key. -/
structure ESQuery where
  must : Option (List JSVal) := none
  filter : Option (List JSVal) := none
  should : Option (List JSVal) := none
  must_not : Option (List JSVal) := none
  minimum_should_match : Option Int := none
deriving Repr

/-- Number of keys present on the accumulator object, as observed by
`Object.keys(bool).length` in parse-query.ts line 178. A key set to an
empty array still counts. -/
def ESQuery.numKeys (q : ESQuery) : Nat :=
  (if q.must.isSome then 1 else 0) + (if q.filter.isSome then 1 else 0) +
  (if q.should.isSome then 1 else 0) + (if q.must_not.isSome then 1 else 0) +
  (if q.minimum_should_match.isSome then 1 else 0)

/-- Dynamic read `esQuery[section]` for a section name string. -/
def ESQuery.getSection (q : ESQuery) (sect : String) : Option (List JSVal) :=
  if sect = "must" then q.must
  else if sect = "filter" then q.filter
  else if sect = "should" then q.should
  else if sect = "must_not" then q.must_not
  else none

/-- Dynamic write `esQuery[section] = v` for a section name string. -/
def ESQuery.setSection (q : ESQuery) (sect : String) (v : List JSVal) : ESQuery :=
  if sect = "must" then { q with must := some v }
  else if sect = "filter" then { q with filter := some v }
  else if sect = "should" then { q with should := some v }
  else if sect = "must_not" then { q with must_not := some v }
  else q

/-- A `\x7bterm: \x7bkey: value\x7d\x7d` clause as pushed by
processTermQuery. -/
def termClause (key : String) (v : JSVal) : JSVal :=
  .obj [("term", .obj [(key, v)])]

/-- Embeds processTermQuery of src/utils/query-handlers/criteria.ts lines
49-61: ensure the filter section exists, then push one term clause per
array element, or a single term clause for a non-array value. -/
def processTermQuery (key : String) (value : JSVal) (esQuery : ESQuery) : ESQuery :=
  let base := esQuery.filter.getD []
  match value with
  | .arr elems => { esQuery with filter := some (base ++ elems.map (fun v => termClause key v)) }
  | v => { esQuery with filter := some (base ++ [termClause key v]) }

/-- Embeds queryCriteriaMap of criteria.ts lines 6-20, with the dotted
path pre-split into section, clause type and optional operand. -/
def queryCriteriaMap (criterion : String) : Option (String × String × Option String) :=
  if criterion = "$nin" then some ("must_not", "terms", none)
  else if criterion = "$in" then some ("filter", "terms", none)
  else if criterion = "$gt" then some ("filter", "range", some "gt")
  else if criterion = "$gte" then some ("filter", "range", some "gte")
  else if criterion = "$lt" then some ("filter", "range", some "lt")
  else if criterion = "$lte" then some ("filter", "range", some "lte")
  else if criterion = "$ne" then some ("must_not", "term", none)
  else if criterion = "$prefix" then some ("filter", "prefix", none)
  else if criterion = "$wildcard" then some ("filter", "wildcard", none)
  else if criterion = "$regexp" then some ("filter", "regexp", none)
  else if criterion = "$match" then some ("must", "match", none)
  else if criterion = "$phrase" then some ("must", "match_phrase", none)
  else if criterion = "$phrase_prefix" then some ("must", "match_phrase_prefix", none)
  else none

/-- The clause pushed by processCriteria for one criterion: with an
operand the clause nests the operand object, without it the raw value. -/
def criteriaClause (clauseType key : String) (operand : Option String) (v : JSVal) : JSVal :=
  .obj [(clauseType, .obj [(key,
    match operand with
    | some op => .obj [(op, v)]
    | none => v)])]

/-- Embeds processCriteria of criteria.ts lines 25-44: iterate the keys of
the criteria object in order, silently skipping unrecognized criteria;
for each recognized criterion ensure the target section is an array and
push the clause. -/
def processCriteria (key : String) (value : List (String × JSVal)) (esQuery : ESQuery) : ESQuery :=
  value.foldl
    (fun q kv =>
      match queryCriteriaMap kv.1 with
      | none => q
      | some (sect, clauseType, operand) =>
        q.setSection sect ((q.getSection sect).getD [] ++ [criteriaClause clauseType key operand kv.2]))
    esQuery

/-- Embeds removeProps of src/utils/core.ts lines 49-58: build a shallow
copy of the object without the named properties, preserving the order of
the remaining keys. The heap-level behaviour of the source (copy first,
then delete on the copy) is modelled separately by `heapRemoveProps`. -/
def removeProps (object : List (String × JSVal)) (props : List String) : List (String × JSVal) :=
  object.filter (fun kv => !(props.contains kv.1))

/-- Renders the accumulator as the plain JavaScript object it is in the
source, listing only the keys that are present. The source object carries
its keys in assignment order; the canonical order used here (must,
filter, should, must_not, minimum_should_match) is an equivalent
deterministic rendering, since no consumer in the translator depends on
accumulator key order. -/
def esQueryToJSVal (q : ESQuery) : JSVal :=
  .obj ((match q.must with | some l => [("must", JSVal.arr l)] | none => []) ++
        (match q.filter with | some l => [("filter", JSVal.arr l)] | none => []) ++
        (match q.should with | some l => [("should", JSVal.arr l)] | none => []) ++
        (match q.must_not with | some l => [("must_not", JSVal.arr l)] | none => []) ++
        (match q.minimum_should_match with
         | some m => [("minimum_should_match", JSVal.num m)]
         | none => []))

/-- Bool-typed substring test used to embed the regex denylist. -/
def startsWithChars : List Char → List Char → Bool
  | [], _ => true
  | _ :: _, [] => false
  | p :: ps, c :: cs => p == c && startsWithChars ps cs

/-- Substring occurrence test over character lists. -/
def containsChars (pat : List Char) : List Char → Bool
  | [] => startsWithChars pat []
  | c :: cs => startsWithChars pat (c :: cs) || containsChars pat cs

/-- String containment test used by the sanitizer model. -/
def strContainsSub (s pat : String) : Bool :=
  containsChars pat.toList s.toList

/-- Embeds sanitizeQueryString of src/utils/security.ts: length check
first, then the fixed denylist of catastrophic-backtracking patterns.
The three source regexes contain only escaped literal characters plus one
plus-quantified literal group each, so each of them matches a string if
and only if the string contains a fixed literal substring: the regexes
match exactly the strings containing the substrings tested here. On
success the string is returned unchanged. -/
def sanitizeQueryString (queryString : String) (maxLength : Nat) : Except JSErr String :=
  if queryString.length > maxLength then
    .error (.badRequest
      (let len := queryString.length
       s!"Query string length ({len}) exceeds maximum of {maxLength}"))
  else if strContainsSub queryString "/.*.*" || strContainsSub queryString "(.*)+" ||
      strContainsSub queryString "(.+)+" then
    .error (.badRequest "Query string contains potentially dangerous regex pattern")
  else .ok queryString

/-- Depth-exceeded error message of parse-query.ts line 145. -/
def depthErrMsg (maxDepth : Nat) : String :=
  s!"Query nesting exceeds maximum depth of {maxDepth}"

/-- List of validators applied to a plain-field value in the reduction
step of parseQuery (parse-query.ts line 167). Note that null and NaN
values are rejected. -/
def plainFieldValidators : List String :=
  ["number", "string", "boolean", "undefined", "object", "array"]

/-- Embeds the handler `$all` of special.ts lines 64-79: a falsy value is
a no-op, a truthy value appends one match_all clause to must. -/
def «$all» (value : JSVal) (esQuery : ESQuery) : ESQuery :=
  if !truthy value then esQuery
  else { esQuery with must := some (esQuery.must.getD [] ++ [JSVal.obj [("match_all", .obj [])]]) }

/-- Embeds the handler `$sqs` of special.ts lines 85-117: null and
undefined payloads are silently ignored; otherwise the payload must be an
object with a $fields array and a $query string (and an optional truthy
$operator string); the query string is sanitized with limit 500 and a
single simple_query_string clause is appended to must, with default
operator `or` when $operator is falsy. -/
def «$sqs» (value : JSVal) (esQuery : ESQuery) : Except JSErr ESQuery :=
  match value with
  | .null => .ok esQuery
  | .undefined => .ok esQuery
  | v => do
    let _ ← validateType v "$sqs" ["object"]
    let _ ← validateType (v.getField "$fields") "$sqs.$fields" ["array"]
    let _ ← validateType (v.getField "$query") "$sqs.$query" ["string"]
    let _ ← (if truthy (v.getField "$operator") then
              validateType (v.getField "$operator") "$sqs.$operator" ["string"]
             else .ok "")
    let rawQuery := match v.getField "$query" with | .str s => s | _ => ""
    let sanitizedQuery ← sanitizeQueryString rawQuery 500
    .ok { esQuery with must := some (esQuery.must.getD [] ++
      [JSVal.obj [("simple_query_string", .obj [
        ("fields", v.getField "$fields"),
        ("query", .str sanitizedQuery),
        ("default_operator",
         if truthy (v.getField "$operator") then v.getField "$operator" else .str "or")])]]) }

/-- Index-annotated traversal of the `$exists`/`$missing` payload array
(special.ts lines 213-216): each element must be a string, with the
error message naming the operator and the index; each element becomes an
exists clause on that field. -/
def existsClausesFrom (operatorName : String) (i : Nat) : List JSVal → Except JSErr (List JSVal)
  | [] => .ok []
  | val :: rest =>
    match validateType val (operatorName ++ "[" ++ toString i ++ "]") ["string"] with
    | .error e => .error e
    | .ok _ =>
      (existsClausesFrom operatorName (i + 1) rest).map
        (fun tail => JSVal.obj [("exists", .obj [("field", val)])] :: tail)

/-- Embeds the handler `$existsOr$missing` of special.ts lines 198-221:
null and undefined payloads are silently ignored; otherwise the payload
must be an array of strings, each becoming an exists clause appended to
the section named by `clause` (must for $exists, must_not for
$missing). -/
def «$existsOr$missing» (clause : String) (value : JSVal) (esQuery : ESQuery) :
    Except JSErr ESQuery :=
  match value with
  | .null => .ok esQuery
  | .undefined => .ok esQuery
  | v =>
    let operatorName := if clause = "must" then "$exists" else "$missing"
    match v with
    | .arr elems =>
      (existsClausesFrom operatorName 0 elems).map
        (fun values => esQuery.setSection clause ((esQuery.getSection clause).getD [] ++ values))
    | other => .error (.badRequest (typeErrMsg operatorName ["array"] (getType other)))

/-- Core of the `$or` handler (special.ts lines 9-29), parameterized by
the recursive translation function: the value must be an array; every
element is translated at depth + 1, translations equal to the no-query
sentinel are discarded, each remaining translation is wrapped as a bool
clause and appended to should, and minimum_should_match is set to 1. -/
def orCore (parse : JSVal → Nat → Except JSErr (Option ESQuery)) (currentDepth : Nat)
    (value : JSVal) (esQuery : ESQuery) : Except JSErr ESQuery :=
  match value with
  | .arr arrayValue => do
    let parsed ← arrayValue.mapM (fun subQuery => parse subQuery (currentDepth + 1))
    .ok { esQuery with
      should := some (esQuery.should.getD [] ++
        (parsed.filterMap id).map (fun p => JSVal.obj [("bool", esQueryToJSVal p)])),
      minimum_should_match := some 1 }
  | other => .error (.badRequest (typeErrMsg "$or" ["array"] (getType other)))

/-- One merge step of the `$and` handler (special.ts lines 47-55): every
section key present on the parsed sub-result is concatenated onto the
accumulator (creating the section when absent), and a present
minimum_should_match overwrites the accumulator value. -/
def andMergeSections (esQuery parsed : ESQuery) : ESQuery :=
  { must := match parsed.must with
            | some ps => some (esQuery.must.getD [] ++ ps)
            | none => esQuery.must,
    filter := match parsed.filter with
              | some ps => some (esQuery.filter.getD [] ++ ps)
              | none => esQuery.filter,
    should := match parsed.should with
              | some ps => some (esQuery.should.getD [] ++ ps)
              | none => esQuery.should,
    must_not := match parsed.must_not with
                | some ps => some (esQuery.must_not.getD [] ++ ps)
                | none => esQuery.must_not,
    minimum_should_match := match parsed.minimum_should_match with
                            | some m => some m
                            | none => esQuery.minimum_should_match }

/-- Core of the `$and` handler (special.ts lines 34-59), parameterized by
the recursive translation function: the value must be an array; every
element is translated at depth + 1, no-query results are discarded, and
the remaining results are merged into the accumulator in element order
with `andMergeSections`. -/
def andCore (parse : JSVal → Nat → Except JSErr (Option ESQuery)) (currentDepth : Nat)
    (value : JSVal) (esQuery : ESQuery) : Except JSErr ESQuery :=
  match value with
  | .arr arrayValue => do
    let parsed ← arrayValue.mapM (fun subQuery => parse subQuery (currentDepth + 1))
    .ok ((parsed.filterMap id).foldl andMergeSections esQuery)
  | other => .error (.badRequest (typeErrMsg "$and" ["array"] (getType other)))

/-- Core of the `$nested` handler (special.ts lines 122-153): null and
undefined payloads are silently ignored; otherwise the payload must be an
object with a string $path; the payload without $path is translated at
depth + 1; a no-query sub-result is a no-op, any other sub-result is
wrapped as a path-scoped nested clause appended to must. -/
def nestedCore (parse : JSVal → Nat → Except JSErr (Option ESQuery)) (currentDepth : Nat)
    (value : JSVal) (esQuery : ESQuery) : Except JSErr ESQuery :=
  match value with
  | .null => .ok esQuery
  | .undefined => .ok esQuery
  | .obj fields => do
    let _ ← validateType (JSVal.getField (.obj fields) "$path") "$nested.$path" ["string"]
    let subQuery ← parse (.obj (removeProps fields ["$path"])) (currentDepth + 1)
    match subQuery with
    | none => .ok esQuery
    | some sub => .ok { esQuery with must := some (esQuery.must.getD [] ++
        [JSVal.obj [("nested", .obj [
          ("path", JSVal.getField (.obj fields) "$path"),
          ("query", .obj [("bool", esQueryToJSVal sub)])])]]) }
  | other => .error (.badRequest (typeErrMsg "$nested" ["object"] (getType other)))

/-- Core of the `$childOr$parent` handler (special.ts lines 158-193):
null and undefined payloads are silently ignored; otherwise the payload
must be an object with a string $type; the payload without $type is
translated at depth + 1; a no-query sub-result is a no-op, any other
sub-result is wrapped as a has_child or has_parent clause appended to
must, keyed type for $child and parent_type for $parent. -/
def childParentCore (parse : JSVal → Nat → Except JSErr (Option ESQuery)) (queryType : String)
    (currentDepth : Nat) (value : JSVal) (esQuery : ESQuery) : Except JSErr ESQuery :=
  let queryName := if queryType = "$child" then "has_child" else "has_parent"
  let typeName := if queryType = "$child" then "type" else "parent_type"
  match value with
  | .null => .ok esQuery
  | .undefined => .ok esQuery
  | .obj fields => do
    let _ ← validateType (JSVal.getField (.obj fields) "$type") (queryType ++ ".$type") ["string"]
    let subQuery ← parse (.obj (removeProps fields ["$type"])) (currentDepth + 1)
    match subQuery with
    | none => .ok esQuery
    | some sub => .ok { esQuery with must := some (esQuery.must.getD [] ++
        [JSVal.obj [(queryName, .obj [
          (typeName, JSVal.getField (.obj fields) "$type"),
          ("query", .obj [("bool", esQueryToJSVal sub)])])]]) }
  | other => .error (.badRequest (typeErrMsg queryType ["object"] (getType other)))

/-- One step of the key reduction of parseQuery (parse-query.ts lines
153-176), parameterized by the recursive translation function. The key is
first rewritten to _id when it equals the id alias; the special-operator
dispatch (`specialQueryHandlers[key]`, lines 95-110 and 163-165) then
tests the possibly-rewritten key; otherwise the value kind is validated
and non-objects are routed to processTermQuery, objects to
processCriteria. -/
def reduceStep (parse : JSVal → Nat → Except JSErr (Option ESQuery)) (idProp : String)
    (currentDepth : Nat) (result : ESQuery) (kv : String × JSVal) : Except JSErr ESQuery :=
  let value := kv.2
  let key := if kv.1 = idProp then "_id" else kv.1
  if key = "$or" then orCore parse currentDepth value result
  else if key = "$and" then andCore parse currentDepth value result
  else if key = "$all" then .ok («$all» value result)
  else if key = "$sqs" then «$sqs» value result
  else if key = "$nested" then nestedCore parse currentDepth value result
  else if key = "$exists" then «$existsOr$missing» "must" value result
  else if key = "$missing" then «$existsOr$missing» "must_not" value result
  else if key = "$child" then childParentCore parse "$child" currentDepth value result
  else if key = "$parent" then childParentCore parse "$parent" currentDepth value result
  else
    match validateType value key plainFieldValidators with
    | .error e => .error e
    | .ok _ =>
      match value with
      | .obj vfields => .ok (processCriteria key vfields result)
      | v => .ok (processTermQuery key v result)

/-- Final line of the reduction (parse-query.ts line 178): the result is
the accumulator when it has at least one key, and the no-query sentinel
(null, modelled as none) otherwise. -/
def queryResultOf (bool : ESQuery) : Option ESQuery :=
  if bool.numKeys ≠ 0 then some bool else none

/-- Fuel-indexed embedding of the cache-free part of parseQuery
(parse-query.ts lines 120-190 without lines 132-141, 148-151 and
180-187, which only run at depth 0 and are modelled by `parseQueryTop`):
validate the input kind, return the sentinel for null and undefined,
fail when the current depth exceeds the maximum, then reduce over the
object fields and apply the sentinel rule. Recursive calls (made from
inside the special-operator handlers) always increase `currentDepth` by
exactly 1, so the fuel value `maxDepth + 1 - currentDepth` used by the
wrapper `parseQueryRec` never reaches the out-of-fuel branch, which
exists only to make the recursion structural. -/
def parseQueryFuel (idProp : String) (maxDepth : Nat) :
    Nat → JSVal → Nat → Except JSErr (Option ESQuery)
  | fuel, query, currentDepth =>
    match validateType query "query" ["object", "null", "undefined"] with
    | .error e => .error e
    | .ok _ =>
      match query with
      | .null => .ok none
      | .undefined => .ok none
      | q =>
        if currentDepth > maxDepth then
          .error (.badRequest (depthErrMsg maxDepth))
        else
          match fuel with
          | 0 => .error (.badRequest "unreachable: fuel invariant violated")
          | f + 1 =>
            match q with
            | .obj fields =>
              (fields.foldlM
                (reduceStep (fun q' d => parseQueryFuel idProp maxDepth f q' d) idProp
                  currentDepth)
                {}).map queryResultOf
            | other =>
              .error (.badRequest
                (typeErrMsg "query" ["object", "null", "undefined"] (getType other)))

/-- The recursive translator parseQuery (parse-query.ts lines 120-190)
without its depth-0 cache layer: this is exactly the computation a
top-level call performs on a cache miss, and the computation every
recursive call (which never touches the cache) performs. -/
def parseQueryRec (query : JSVal) (idProp : String) (maxDepth currentDepth : Nat) :
    Except JSErr (Option ESQuery) :=
  parseQueryFuel idProp maxDepth (maxDepth + 1 - currentDepth) query currentDepth

/-- The handler `$or` of special.ts lines 9-29 with its source signature
(source defaults: maxDepth 50, currentDepth 0). -/
def «$or» (value : JSVal) (esQuery : ESQuery) (idProp : String) (maxDepth currentDepth : Nat) :
    Except JSErr ESQuery :=
  orCore (fun q d => parseQueryRec q idProp maxDepth d) currentDepth value esQuery

/-- The handler `$and` of special.ts lines 34-59 with its source
signature. -/
def «$and» (value : JSVal) (esQuery : ESQuery) (idProp : String) (maxDepth currentDepth : Nat) :
    Except JSErr ESQuery :=
  andCore (fun q d => parseQueryRec q idProp maxDepth d) currentDepth value esQuery

/-- The handler `$nested` of special.ts lines 122-153 with its source
signature. -/
def «$nested» (value : JSVal) (esQuery : ESQuery) (idProp : String) (maxDepth currentDepth : Nat) :
    Except JSErr ESQuery :=
  nestedCore (fun q d => parseQueryRec q idProp maxDepth d) currentDepth value esQuery

/-- The handler `$childOr$parent` of special.ts lines 158-193 with its
source signature. -/
def «$childOr$parent» (queryType : String) (value : JSVal) (esQuery : ESQuery) (idProp : String)
    (maxDepth currentDepth : Nat) : Except JSErr ESQuery :=
  childParentCore (fun q d => parseQueryRec q idProp maxDepth d) queryType currentDepth value
    esQuery

/-- Lexicographic comparison of character lists. -/
def charListLt : List Char → List Char → Bool
  | [], [] => false
  | [], _ :: _ => true
  | _ :: _, [] => false
  | a :: as, b :: bs => decide (a < b) || (a == b && charListLt as bs)

/-- Lexicographic string comparison by code points, agreeing with the
UTF-16 code-unit comparison of the default JavaScript sort on the basic
multilingual plane. -/
def strLt (a b : String) : Bool :=
  charListLt a.toList b.toList

/-- Insertion step for sorting object fields by key. -/
def insertFieldSorted (kv : String × JSVal) :
    List (String × JSVal) → List (String × JSVal)
  | [] => [kv]
  | x :: xs => if strLt kv.1 x.1 then kv :: x :: xs else x :: insertFieldSorted kv xs

/-- Lexicographic key sort of object fields, modelling
`Object.keys(obj).sort()` in normalizeObject (parse-query.ts line 40). -/
def sortFieldsByKey (fs : List (String × JSVal)) : List (String × JSVal) :=
  fs.foldr insertFieldSorted []

mutual

/-- Embeds normalizeObject of parse-query.ts lines 22-46: NaN and
function values become marker strings, primitives pass through, arrays
are normalized elementwise, and object keys are sorted lexicographically
with normalized values. The source sorts the keys first and then
normalizes each value; normalizing the values first and then sorting by
key yields the same object since normalization keeps keys unchanged. -/
def normalizeObject : JSVal → JSVal
  | .nan => .str "__NaN__"
  | .func => .str "__function__"
  | .null => .null
  | .num n => .num n
  | .str s => .str s
  | .bool b => .bool b
  | .undefined => .undefined
  | .arr elems => .arr (normalizeList elems)
  | .obj fields => .obj (sortFieldsByKey (normalizeFields fields))

/-- Elementwise normalization of an array. -/
def normalizeList : List JSVal → List JSVal
  | [] => []
  | e :: rest => normalizeObject e :: normalizeList rest

/-- Fieldwise normalization of an object. -/
def normalizeFields : List (String × JSVal) → List (String × JSVal)
  | [] => []
  | (k, v) :: rest => (k, normalizeObject v) :: normalizeFields rest

end

/-- Minimal JSON string escaping (backslash and double quote). The JSON
serializer is only used to build deterministic cache keys, for which the
exact escaping of control characters is irrelevant. -/
def jsonEscapeChar (c : Char) : String :=
  if c = '\\' then "\\\\"
  else if c = '"' then "\\\""
  else String.singleton c

/-- Quoted JSON rendering of a string. -/
def jsonQuote (s : String) : String :=
  "\"" ++ String.join (s.toList.map jsonEscapeChar) ++ "\""

mutual

/-- Models JSON.stringify: undefined and function values are not
serializable (none); NaN serializes as null; inside arrays missing
serializations render as null, inside objects the key is dropped. Numbers
are restricted to integers in this embedding, for which the decimal
rendering matches the source. -/
def jstr : JSVal → Option String
  | .num n => some (toString n)
  | .nan => some "null"
  | .str s => some (jsonQuote s)
  | .bool b => some (if b then "true" else "false")
  | .null => some "null"
  | .undefined => none
  | .func => none
  | .arr elems => some ("[" ++ String.intercalate "," (jstrElems elems) ++ "]")
  | .obj fields => some ("\x7b" ++ String.intercalate "," (jstrFields fields) ++ "\x7d")

/-- Array elements under JSON.stringify. -/
def jstrElems : List JSVal → List String
  | [] => []
  | e :: rest =>
    (match jstr e with
     | some s => s
     | none => "null") :: jstrElems rest

/-- Object fields under JSON.stringify. -/
def jstrFields : List (String × JSVal) → List String
  | [] => []
  | (k, v) :: rest =>
    match jstr v with
    | some s => (jsonQuote k ++ ":" ++ s) :: jstrFields rest
    | none => jstrFields rest

end

/-- Embeds hashQuery of parse-query.ts lines 54-58, which serializes the
normalized query, appends the id property and hashes with sha256 (keeping
16 hex characters). The hash is modelled as an injective function: the
cache key here is the hashed string itself. -/
def hashQuery (query : JSVal) (idProp : String) : String :=
  (match jstr (normalizeObject query) with
   | some s => s
   | none => "undefined") ++ ":" ++ idProp

/-- CACHE_MAX_SIZE of parse-query.ts line 13. -/
def CACHE_MAX_SIZE : Nat := 1000

/-- CACHE_MAX_AGE of parse-query.ts line 14 (five minutes in
milliseconds). -/
def CACHE_MAX_AGE : Nat := 5 * 60 * 1000

/-- One entry of the query cache (result plus insertion timestamp). -/
structure CacheEntry where
  result : Option ESQuery
  timestamp : Nat
deriving Repr

/-- The module-level queryCache Map of parse-query.ts line 12, modelled
as an insertion-ordered association list (JavaScript Map iteration order
is insertion order, with overwrites keeping the original position). -/
abbrev Cache := List (String × CacheEntry)

/-- Map.set: overwrite in place when the key exists, append otherwise. -/
def cacheSet (c : Cache) (k : String) (e : CacheEntry) : Cache :=
  if (c.lookup k).isSome then
    c.map (fun kv => if kv.1 = k then (k, e) else kv)
  else c ++ [(k, e)]

/-- Stable insertion by ascending timestamp, modelling the comparator of
parse-query.ts line 77 under the stable Array.prototype.sort. -/
def insertByTimestamp (kv : String × CacheEntry) :
    List (String × CacheEntry) → List (String × CacheEntry)
  | [] => [kv]
  | x :: xs =>
    if kv.2.timestamp < x.2.timestamp then kv :: x :: xs
    else x :: insertByTimestamp kv xs

/-- Embeds cleanCache of parse-query.ts lines 63-82: delete every entry
older than CACHE_MAX_AGE, then, if still above CACHE_MAX_SIZE, delete the
oldest remaining entries (sorted by ascending timestamp) down to the
bound. -/
def cleanCache (c : Cache) (now : Nat) : Cache :=
  let kept := c.filter (fun kv => !(now - kv.2.timestamp > CACHE_MAX_AGE))
  if kept.length > CACHE_MAX_SIZE then
    let sorted := kept.foldl (fun acc kv => insertByTimestamp kv acc) []
    let toRemove := (sorted.take (kept.length - CACHE_MAX_SIZE)).map (fun kv => kv.1)
    kept.filter (fun kv => !(toRemove.contains kv.1))
  else kept

mutual

/-- Models `JSON.parse(JSON.stringify(x))` on a serializable value:
object fields holding undefined or function values are dropped, such
values inside arrays become null, and NaN becomes null. -/
def jsonRoundTrip : JSVal → JSVal
  | .nan => .null
  | .num n => .num n
  | .str s => .str s
  | .bool b => .bool b
  | .null => .null
  | .undefined => .undefined
  | .func => .func
  | .arr elems => .arr (rtElems elems)
  | .obj fields => .obj (rtFields fields)

/-- Array elements under the JSON round trip. -/
def rtElems : List JSVal → List JSVal
  | [] => []
  | e :: rest =>
    (match e with
     | .undefined => .null
     | .func => .null
     | v => jsonRoundTrip v) :: rtElems rest

/-- Object fields under the JSON round trip. -/
def rtFields : List (String × JSVal) → List (String × JSVal)
  | [] => []
  | (k, v) :: rest =>
    match v with
    | .undefined => rtFields rest
    | .func => rtFields rest
    | v' => (k, jsonRoundTrip v') :: rtFields rest

end

/-- The JSON round trip applied to a cached accumulator, as performed by
the cache hit path (parse-query.ts line 139): the section arrays survive
with their clauses round-tripped and the integer minimum_should_match
survives unchanged. -/
def roundTripES (q : ESQuery) : ESQuery :=
  { must := q.must.map rtElems,
    filter := q.filter.map rtElems,
    should := q.should.map rtElems,
    must_not := q.must_not.map rtElems,
    minimum_should_match := q.minimum_should_match }

/-- Embeds a top-level parseQuery call including the depth-0 cache layer
(parse-query.ts lines 120-190). `now` models Date.now() and `rnd` models
the outcome of the `Math.random() < 0.01` draw of line 149. On the read
path (lines 133-141) a present entry is returned immediately as a deep
copy via the JSON round trip, with no age comparison; only after a miss
do the depth check (vacuous at depth 0 for a natural maxDepth), the
opportunistic cleanCache pass and the reduction run, and the computed
result is stored under the key with the current timestamp and returned
uncopied. -/
def parseQueryTop (cache : Cache) (now : Nat) (rnd : Bool) (query : JSVal) (idProp : String)
    (maxDepth : Nat) : Except JSErr (Option ESQuery × Cache) :=
  match validateType query "query" ["object", "null", "undefined"] with
  | .error e => .error e
  | .ok _ =>
    match query with
    | .null => .ok (none, cache)
    | .undefined => .ok (none, cache)
    | q =>
      let cacheKey := hashQuery q idProp
      match cache.lookup cacheKey with
      | some cached =>
        .ok ((match cached.result with
              | some r => some (roundTripES r)
              | none => none), cache)
      | none =>
        let cache1 := if rnd then cleanCache cache now else cache
        match parseQueryRec q idProp maxDepth 0 with
        | .error e => .error e
        | .ok r => .ok (r, cacheSet cache1 cacheKey { result := r, timestamp := now })

/-- Typeof test used by calculateQueryComplexity: `typeof value ===
"object"` holds for objects, arrays and null. -/
def typeofIsObject : JSVal → Bool
  | .obj _ => true
  | .arr _ => true
  | .null => true
  | _ => false

mutual

/-- Embeds calculateQueryComplexity of src/utils/security.ts lines
359-408: null and non-objects cost 0; for an object (or an array, whose
numeric indices are plain keys) each key costs a base 1 plus a surcharge
computed by `complexityOfKey`. -/
def calculateQueryComplexity : JSVal → Nat
  | .obj fields => complexityOfFields fields
  | .arr elems => complexityOfIndexed elems
  | _ => 0
termination_by v => (sizeOf v, 0)

/-- Sum of the per-key costs of an object. -/
def complexityOfFields : List (String × JSVal) → Nat
  | [] => 0
  | (key, value) :: rest => (1 + complexityOfKey key value) + complexityOfFields rest
termination_by l => (sizeOf l, 0)

/-- Surcharge of one key beyond the base cost 1: fixed surcharges for the
expensive operators (which do not recurse into their values), doubled
child costs for $or and $and arrays, a tenfold multiplier for $nested and
threefold for $child and $parent payloads of object type, additive
recursion into plain object values, and a length-capped cost
min(length, 100) for plain array values. -/
def complexityOfKey (key : String) (value : JSVal) : Nat :=
  if key = "$wildcard" then 5
  else if key = "$regexp" then 8
  else if key = "$fuzzy" then 6
  else if key = "$prefix" then 3
  else if key = "$script" then 15
  else if key = "$or" ∨ key = "$and" then
    match value with
    | .arr items => complexityOfChildren items
    | _ => 0
  else if key = "$nested" then
    if typeofIsObject value then calculateQueryComplexity value * 10 else 0
  else if key = "$child" ∨ key = "$parent" then
    if typeofIsObject value then calculateQueryComplexity value * 3 else 0
  else
    match value with
    | .obj fs => calculateQueryComplexity (.obj fs)
    | .arr elems => min elems.length 100
    | _ => 0
termination_by (sizeOf value, 1)

/-- Doubled summed cost of the members of an $or or $and array. -/
def complexityOfChildren : List JSVal → Nat
  | [] => 0
  | item :: rest => calculateQueryComplexity item * 2 + complexityOfChildren rest
termination_by l => (sizeOf l, 0)

/-- Cost of the elements of an array reached as the query argument
itself: `Object.keys` yields the numeric indices, which never name an
operator, so every element takes the plain-value branch. -/
def complexityOfIndexed : List JSVal → Nat
  | [] => 0
  | value :: rest =>
    (1 + (match value with
          | .obj fs => calculateQueryComplexity (.obj fs)
          | .arr elems => min elems.length 100
          | _ => 0)) + complexityOfIndexed rest
termination_by l => (sizeOf l, 0)

end

/-- Filter built as N levels of `$and: [ ... ]` around a leaf filter, as
in the depth-rejection property of the specification. -/
def nestAnd (leaf : JSVal) : Nat → JSVal
  | 0 => leaf
  | n + 1 => .obj [("$and", .arr [nestAnd leaf n])]

/-- Specification-side closed form of the section merge performed by the
`$and` handler: the accumulator section concatenated with every section
of the sub-results in element order, treating an absent section as empty;
the section stays absent only when it is absent on the accumulator and on
every sub-result. -/
def concatSection (a : Option (List JSVal)) (ps : List (Option (List JSVal))) :
    Option (List JSVal) :=
  if a.isNone && ps.all Option.isNone then none
  else some (a.getD [] ++ (ps.map (fun p => p.getD [])).flatten)

/-- Specification-side closed form of the minimum_should_match
combination of the `$and` handler: the last sub-result value present
wins, and the accumulator value survives only when no sub-result carries
one. -/
def lastWins (a : Option Int) (ps : List (Option Int)) : Option Int :=
  match (ps.filterMap id).getLast? with
  | some m => some m
  | none => a

/-!
Heap-level model. The claim that translation never mutates its input is a
statement about the JavaScript heap, so the translator is additionally
embedded with explicit state passing: objects and arrays live in a heap
of numbered cells, all reads go through references, and the only
heap-writing operation in the whole pipeline is the shallow copy made by
removeProps (core.ts line 53, `Object.assign` of a fresh literal followed
by deletes on the copy), modelled as the allocation of a fresh cell. The
accumulator stays a pure value: in the source it is created per call from
a fresh object literal (parse-query.ts line 176) and the clause objects
pushed into it are fresh literals, so none of its mutations can reach a
pre-existing cell; the values embedded into clauses are rendered with
`hydrate`.
-/

/-- Heap-level JavaScript values: primitives inline, objects and arrays
as references to heap cells. -/
inductive HVal where
  | num (n : Int)
  | nan
  | str (s : String)
  | bool (b : Bool)
  | null
  | undefined
  | func
  | ref (r : Nat)
deriving Repr

/-- A heap cell: an object with ordered fields or an array. -/
inductive HCell where
  | objCell (fields : List (String × HVal))
  | arrCell (elems : List HVal)
deriving Repr

/-- The heap: cells by number, plus the next fresh number. -/
structure Heap where
  cells : List (Nat × HCell)
  next : Nat
deriving Repr

/-- Cell lookup. -/
def Heap.read (h : Heap) (r : Nat) : Option HCell :=
  h.cells.lookup r

/-- Allocation of a fresh cell, returning the new heap and the fresh
reference. -/
def Heap.alloc (h : Heap) (c : HCell) : Heap × Nat :=
  ({ cells := h.cells ++ [(h.next, c)], next := h.next + 1 }, h.next)

/-- The append-only growth relation between heaps: every pre-existing
cell is literally unchanged (the old cell list is a prefix of the new
one) and the allocation counter does not decrease. -/
def heapGrows (h h' : Heap) : Prop :=
  (∃ tail, h'.cells = h.cells ++ tail) ∧ h.next ≤ h'.next

/-- getType over the heap: a reference classifies as array or object
according to its cell. A dangling reference (impossible for heaps built
from JavaScript values) defaults to object. -/
def hGetType (h : Heap) : HVal → String
  | .num _ => "number"
  | .nan => "NaN"
  | .str _ => "string"
  | .bool _ => "boolean"
  | .null => "null"
  | .undefined => "undefined"
  | .func => "function"
  | .ref r =>
    match h.read r with
    | some (.arrCell _) => "array"
    | _ => "object"

/-- validateType over the heap. -/
def hValidateType (h : Heap) (value : HVal) (name : String) (validators : List String) :
    Except JSErr String :=
  let type := hGetType h value
  if validators.contains type then .ok type
  else .error (.badRequest (typeErrMsg name validators type))

/-- Truthiness over the heap: every object and array reference is
truthy. -/
def hTruthy : HVal → Bool
  | .num n => n != 0
  | .nan => false
  | .str s => s ≠ ""
  | .bool b => b
  | .null => false
  | .undefined => false
  | .func => true
  | .ref _ => true

/-- Property access on a list of heap object fields. -/
def hGetField (fields : List (String × HVal)) (key : String) : HVal :=
  match fields.lookup key with
  | some v => v
  | none => .undefined

/-- One `delete result[prop]` step on the fields of a copied object. -/
def deleteKey (fs : List (String × HVal)) (prop : String) : List (String × HVal) :=
  fs.filter (fun kv => !(kv.1 == prop))

/-- Heap-level removeProps (core.ts lines 49-58): `Object.assign` copies
the fields into a fresh cell and the deletes run on the copy; the
original cell is untouched and the remaining field values (including
references to nested objects) are shared, not cloned. -/
def heapRemoveProps (h : Heap) (r : Nat) (props : List String) : Heap × Nat :=
  let fields :=
    match h.read r with
    | some (.objCell fs) => fs
    | _ => []
  Heap.alloc h (.objCell (props.foldl deleteKey fields))

/-- Read-back of a heap value as a tree, used when a heap value is
embedded into a clause of the accumulator. The fuel only guards against
cyclic heaps, on which the read-back truncates to undefined; the frame
theorem does not depend on the rendered contents. -/
def hydrate (h : Heap) : Nat → HVal → JSVal
  | _, .num n => .num n
  | _, .nan => .nan
  | _, .str s => .str s
  | _, .bool b => .bool b
  | _, .null => .null
  | _, .undefined => .undefined
  | _, .func => .func
  | 0, .ref _ => .undefined
  | f + 1, .ref r =>
    match h.read r with
    | some (.objCell fs) => .obj (fs.map (fun kv => (kv.1, hydrate h f kv.2)))
    | some (.arrCell es) => .arr (es.map (fun e => hydrate h f e))
    | none => .undefined

/-- Hydration fuel large enough to exhaust any acyclic heap. -/
def Heap.depthBound (h : Heap) : Nat :=
  h.cells.length + 1

/-- Heap-level processTermQuery: an array reference contributes one term
clause per element, anything else a single term clause. -/
def hProcessTermQuery (h : Heap) (key : String) (value : HVal) (esQuery : ESQuery) : ESQuery :=
  let base := esQuery.filter.getD []
  match value with
  | .ref r =>
    match h.read r with
    | some (.arrCell elems) =>
      { esQuery with
        filter := some (base ++ elems.map (fun v => termClause key (hydrate h h.depthBound v))) }
    | _ => { esQuery with filter := some (base ++ [termClause key (hydrate h h.depthBound value)]) }
  | v => { esQuery with filter := some (base ++ [termClause key (hydrate h h.depthBound v)]) }

/-- Heap-level processCriteria over the fields of a criteria object. -/
def hProcessCriteria (h : Heap) (key : String) (value : List (String × HVal))
    (esQuery : ESQuery) : ESQuery :=
  value.foldl
    (fun q kv =>
      match queryCriteriaMap kv.1 with
      | none => q
      | some (sect, clauseType, operand) =>
        q.setSection sect ((q.getSection sect).getD [] ++
          [criteriaClause clauseType key operand (hydrate h h.depthBound kv.2)]))
    esQuery

/-- Heap-level `$all`. -/
def hAllHandler (value : HVal) (esQuery : ESQuery) : ESQuery :=
  if !hTruthy value then esQuery
  else { esQuery with must := some (esQuery.must.getD [] ++ [JSVal.obj [("match_all", .obj [])]]) }

/-- Heap-level `$sqs`. -/
def hSqsHandler (h : Heap) (value : HVal) (esQuery : ESQuery) : Except JSErr ESQuery :=
  match value with
  | .null => .ok esQuery
  | .undefined => .ok esQuery
  | v => do
    let _ ← hValidateType h v "$sqs" ["object"]
    let fields :=
      match v with
      | .ref r =>
        (match h.read r with
         | some (.objCell fs) => fs
         | _ => [])
      | _ => []
    let _ ← hValidateType h (hGetField fields "$fields") "$sqs.$fields" ["array"]
    let _ ← hValidateType h (hGetField fields "$query") "$sqs.$query" ["string"]
    let _ ← (if hTruthy (hGetField fields "$operator") then
              hValidateType h (hGetField fields "$operator") "$sqs.$operator" ["string"]
             else .ok "")
    let rawQuery := match hGetField fields "$query" with | .str s => s | _ => ""
    let sanitizedQuery ← sanitizeQueryString rawQuery 500
    .ok { esQuery with must := some (esQuery.must.getD [] ++
      [JSVal.obj [("simple_query_string", .obj [
        ("fields", hydrate h h.depthBound (hGetField fields "$fields")),
        ("query", .str sanitizedQuery),
        ("default_operator",
         if hTruthy (hGetField fields "$operator") then
           hydrate h h.depthBound (hGetField fields "$operator")
         else .str "or")])]]) }

/-- Heap-level index-annotated `$exists`/`$missing` element traversal. -/
def hExistsClausesFrom (h : Heap) (operatorName : String) (i : Nat) :
    List HVal → Except JSErr (List JSVal)
  | [] => .ok []
  | val :: rest =>
    match hValidateType h val (operatorName ++ "[" ++ toString i ++ "]") ["string"] with
    | .error e => .error e
    | .ok _ =>
      (hExistsClausesFrom h operatorName (i + 1) rest).map
        (fun tail =>
          JSVal.obj [("exists", .obj [("field", hydrate h h.depthBound val)])] :: tail)

/-- Heap-level `$existsOr$missing`. -/
def hExistsMissingHandler (h : Heap) (clause : String) (value : HVal) (esQuery : ESQuery) :
    Except JSErr ESQuery :=
  match value with
  | .null => .ok esQuery
  | .undefined => .ok esQuery
  | v =>
    let operatorName := if clause = "must" then "$exists" else "$missing"
    match v with
    | .ref r =>
      match h.read r with
      | some (.arrCell elems) =>
        (hExistsClausesFrom h operatorName 0 elems).map
          (fun values =>
            esQuery.setSection clause ((esQuery.getSection clause).getD [] ++ values))
      | _ => .error (.badRequest (typeErrMsg operatorName ["array"] (hGetType h v)))
    | _ => .error (.badRequest (typeErrMsg operatorName ["array"] (hGetType h v)))

/-- Heap-threading traversal of the sub-filters of `$or` and `$and`:
translate each element at depth + 1, propagating the first error and the
heap. -/
def hMapParse (parse : HVal → Nat → Heap → Except JSErr (Option ESQuery) × Heap)
    (cd : Nat) : List HVal → Heap → Except JSErr (List (Option ESQuery)) × Heap
  | [], h => (.ok [], h)
  | e :: rest, h =>
    match parse e (cd + 1) h with
    | (.error err, h') => (.error err, h')
    | (.ok r, h') =>
      match hMapParse parse cd rest h' with
      | (.error err, h'') => (.error err, h'')
      | (.ok rs, h'') => (.ok (r :: rs), h'')

/-- Heap-level `$or` core. -/
def hOrCore (parse : HVal → Nat → Heap → Except JSErr (Option ESQuery) × Heap) (cd : Nat)
    (value : HVal) (esQuery : ESQuery) (h : Heap) : Except JSErr ESQuery × Heap :=
  match value with
  | .ref r =>
    match h.read r with
    | some (.arrCell elems) =>
      (match hMapParse parse cd elems h with
       | (.error e, h') => (.error e, h')
       | (.ok parsed, h') =>
         (.ok { esQuery with
                should := some (esQuery.should.getD [] ++
                  (parsed.filterMap id).map (fun p => JSVal.obj [("bool", esQueryToJSVal p)])),
                minimum_should_match := some 1 }, h'))
    | _ => (.error (.badRequest (typeErrMsg "$or" ["array"] (hGetType h value))), h)
  | v => (.error (.badRequest (typeErrMsg "$or" ["array"] (hGetType h v))), h)

/-- Heap-level `$and` core. -/
def hAndCore (parse : HVal → Nat → Heap → Except JSErr (Option ESQuery) × Heap) (cd : Nat)
    (value : HVal) (esQuery : ESQuery) (h : Heap) : Except JSErr ESQuery × Heap :=
  match value with
  | .ref r =>
    match h.read r with
    | some (.arrCell elems) =>
      (match hMapParse parse cd elems h with
       | (.error e, h') => (.error e, h')
       | (.ok parsed, h') =>
         (.ok ((parsed.filterMap id).foldl andMergeSections esQuery), h'))
    | _ => (.error (.badRequest (typeErrMsg "$and" ["array"] (hGetType h value))), h)
  | v => (.error (.badRequest (typeErrMsg "$and" ["array"] (hGetType h v))), h)

/-- Heap-level `$nested` core: the only handler step that writes to the
heap, through the removeProps copy. -/
def hNestedCore (parse : HVal → Nat → Heap → Except JSErr (Option ESQuery) × Heap) (cd : Nat)
    (value : HVal) (esQuery : ESQuery) (h : Heap) : Except JSErr ESQuery × Heap :=
  match value with
  | .null => (.ok esQuery, h)
  | .undefined => (.ok esQuery, h)
  | .ref r =>
    match h.read r with
    | some (.objCell fields) =>
      (match hValidateType h (hGetField fields "$path") "$nested.$path" ["string"] with
       | .error e => (.error e, h)
       | .ok _ =>
         let copied := heapRemoveProps h r ["$path"]
         match parse (.ref copied.2) (cd + 1) copied.1 with
         | (.error e, h') => (.error e, h')
         | (.ok none, h') => (.ok esQuery, h')
         | (.ok (some sub), h') =>
           (.ok { esQuery with must := some (esQuery.must.getD [] ++
              [JSVal.obj [("nested", .obj [
                ("path", hydrate h h.depthBound (hGetField fields "$path")),
                ("query", .obj [("bool", esQueryToJSVal sub)])])]]) }, h'))
    | _ => (.error (.badRequest (typeErrMsg "$nested" ["object"] (hGetType h value))), h)
  | v => (.error (.badRequest (typeErrMsg "$nested" ["object"] (hGetType h v))), h)

/-- Heap-level `$childOr$parent` core, writing to the heap only through
the removeProps copy. -/
def hChildParentCore (parse : HVal → Nat → Heap → Except JSErr (Option ESQuery) × Heap)
    (queryType : String) (cd : Nat) (value : HVal) (esQuery : ESQuery) (h : Heap) :
    Except JSErr ESQuery × Heap :=
  let queryName := if queryType = "$child" then "has_child" else "has_parent"
  let typeName := if queryType = "$child" then "type" else "parent_type"
  match value with
  | .null => (.ok esQuery, h)
  | .undefined => (.ok esQuery, h)
  | .ref r =>
    match h.read r with
    | some (.objCell fields) =>
      (match hValidateType h (hGetField fields "$type") (queryType ++ ".$type") ["string"] with
       | .error e => (.error e, h)
       | .ok _ =>
         let copied := heapRemoveProps h r ["$type"]
         match parse (.ref copied.2) (cd + 1) copied.1 with
         | (.error e, h') => (.error e, h')
         | (.ok none, h') => (.ok esQuery, h')
         | (.ok (some sub), h') =>
           (.ok { esQuery with must := some (esQuery.must.getD [] ++
              [JSVal.obj [(queryName, .obj [
                (typeName, hydrate h h.depthBound (hGetField fields "$type")),
                ("query", .obj [("bool", esQueryToJSVal sub)])])]]) }, h'))
    | _ => (.error (.badRequest (typeErrMsg queryType ["object"] (hGetType h value))), h)
  | v => (.error (.badRequest (typeErrMsg queryType ["object"] (hGetType h v))), h)

/-- Heap-level reduction step, mirroring `reduceStep`. -/
def hReduceStep (parse : HVal → Nat → Heap → Except JSErr (Option ESQuery) × Heap)
    (idProp : String) (cd : Nat) (result : ESQuery) (kv : String × HVal) (h : Heap) :
    Except JSErr ESQuery × Heap :=
  let value := kv.2
  let key := if kv.1 = idProp then "_id" else kv.1
  if key = "$or" then hOrCore parse cd value result h
  else if key = "$and" then hAndCore parse cd value result h
  else if key = "$all" then (.ok (hAllHandler value result), h)
  else if key = "$sqs" then (hSqsHandler h value result, h)
  else if key = "$nested" then hNestedCore parse cd value result h
  else if key = "$exists" then (hExistsMissingHandler h "must" value result, h)
  else if key = "$missing" then (hExistsMissingHandler h "must_not" value result, h)
  else if key = "$child" then hChildParentCore parse "$child" cd value result h
  else if key = "$parent" then hChildParentCore parse "$parent" cd value result h
  else
    match hValidateType h value key plainFieldValidators with
    | .error e => (.error e, h)
    | .ok _ =>
      match value with
      | .ref r =>
        (match h.read r with
         | some (.objCell vfields) => (.ok (hProcessCriteria h key vfields result), h)
         | _ => (.ok (hProcessTermQuery h key value result), h))
      | v => (.ok (hProcessTermQuery h key v result), h)

/-- Heap-threading fold over the fields of the query object. -/
def hFoldFields (step : ESQuery → (String × HVal) → Heap → Except JSErr ESQuery × Heap) :
    List (String × HVal) → ESQuery → Heap → Except JSErr ESQuery × Heap
  | [], acc, h => (.ok acc, h)
  | kv :: rest, acc, h =>
    match step acc kv h with
    | (.error e, h') => (.error e, h')
    | (.ok acc', h') => hFoldFields step rest acc' h'

/-- Fuel-indexed heap-level translator, mirroring `parseQueryFuel` with
the heap threaded through every step. -/
def parseHFuel (idProp : String) (maxDepth : Nat) :
    Nat → HVal → Nat → Heap → Except JSErr (Option ESQuery) × Heap
  | fuel, query, currentDepth, h =>
    match hValidateType h query "query" ["object", "null", "undefined"] with
    | .error e => (.error e, h)
    | .ok _ =>
      match query with
      | .null => (.ok none, h)
      | .undefined => (.ok none, h)
      | q =>
        if currentDepth > maxDepth then
          (.error (.badRequest (depthErrMsg maxDepth)), h)
        else
          match fuel with
          | 0 => (.error (.badRequest "unreachable: fuel invariant violated"), h)
          | f + 1 =>
            match q with
            | .ref r =>
              (match h.read r with
               | some (.objCell fields) =>
                 (match hFoldFields
                     (hReduceStep (fun q' d h' => parseHFuel idProp maxDepth f q' d h') idProp
                       currentDepth)
                     fields {} h with
                  | (.error e, h') => (.error e, h')
                  | (.ok bool, h') => (.ok (queryResultOf bool), h'))
               | _ =>
                 (.error (.badRequest
                   (typeErrMsg "query" ["object", "null", "undefined"] (hGetType h q))), h))
            | other =>
              (.error (.badRequest
                (typeErrMsg "query" ["object", "null", "undefined"] (hGetType h other))), h)

/-- The heap-level recursive translator, with the same exact fuel bound
as `parseQueryRec`. -/
def parseHRec (h : Heap) (query : HVal) (idProp : String) (maxDepth currentDepth : Nat) :
    Except JSErr (Option ESQuery) × Heap :=
  parseHFuel idProp maxDepth (maxDepth + 1 - currentDepth) query currentDepth h

/-- Leaf filter used in the depth-rejection claim. -/
def andDepthLeaf : JSVal := .obj [("a", .num 1)]

/-- Translation of the leaf filter, which is also the translation of
every successful `$and` nesting around it, since each `$and` level merges
exactly this accumulator into an empty one. -/
def andDepthLeafES : ESQuery := { filter := some [termClause "a" (.num 1)] }

end FeathersES

namespace FeathersES

/-! Shared lemmas about the translator. -/

/-- Null input translates to the no-query sentinel. -/
theorem parseQueryRec_null (idProp : String) (md cd : Nat) :
    parseQueryRec .null idProp md cd = .ok none := by
  unfold parseQueryRec
  cases md + 1 - cd <;> rfl

/-- Undefined input translates to the no-query sentinel. -/
theorem parseQueryRec_undefined (idProp : String) (md cd : Nat) :
    parseQueryRec .undefined idProp md cd = .ok none := by
  unfold parseQueryRec
  cases md + 1 - cd <;> rfl

/-- One unfolding step of the fuel-indexed translator on an object with
nonzero fuel. -/
theorem parseQueryFuel_obj_step (idProp : String) (md f : Nat)
    (fields : List (String × JSVal)) (cd : Nat) :
    parseQueryFuel idProp md (f + 1) (.obj fields) cd =
      if cd > md then .error (.badRequest (depthErrMsg md))
      else (fields.foldlM
        (reduceStep (fun q d => parseQueryFuel idProp md f q d) idProp cd) {}).map
          queryResultOf := rfl

/-- Unfolding of the fuel-indexed translator on an object with exhausted
fuel, reachable only beyond the depth budget. -/
theorem parseQueryFuel_obj_zero (idProp : String) (md : Nat) (fields : List (String × JSVal))
    (cd : Nat) :
    parseQueryFuel idProp md 0 (.obj fields) cd =
      if cd > md then .error (.badRequest (depthErrMsg md))
      else .error (.badRequest "unreachable: fuel invariant violated") := rfl

/-- Depth check: an object input at a depth beyond the maximum fails with
the depth-exceeded error. -/
theorem parseQueryRec_depthExceeded (fields : List (String × JSVal)) (idProp : String)
    (md cd : Nat) (h : cd > md) :
    parseQueryRec (.obj fields) idProp md cd = .error (.badRequest (depthErrMsg md)) := by
  have hz : md + 1 - cd = 0 := by omega
  unfold parseQueryRec
  rw [hz, parseQueryFuel_obj_zero, if_pos h]

/-- Congruence of `orCore` in the recursive translation function: only
its values at depth `currentDepth + 1` matter. -/
theorem orCore_congr (p₁ p₂ : JSVal → Nat → Except JSErr (Option ESQuery)) (cd : Nat)
    (value : JSVal) (esQuery : ESQuery) (h : ∀ q, p₁ q (cd + 1) = p₂ q (cd + 1)) :
    orCore p₁ cd value esQuery = orCore p₂ cd value esQuery := by
  have hf : (fun q => p₁ q (cd + 1)) = (fun q => p₂ q (cd + 1)) := funext h
  unfold orCore
  cases value <;> simp only [hf]

/-- Congruence of `andCore` in the recursive translation function. -/
theorem andCore_congr (p₁ p₂ : JSVal → Nat → Except JSErr (Option ESQuery)) (cd : Nat)
    (value : JSVal) (esQuery : ESQuery) (h : ∀ q, p₁ q (cd + 1) = p₂ q (cd + 1)) :
    andCore p₁ cd value esQuery = andCore p₂ cd value esQuery := by
  have hf : (fun q => p₁ q (cd + 1)) = (fun q => p₂ q (cd + 1)) := funext h
  unfold andCore
  cases value <;> simp only [hf]

/-- Congruence of `nestedCore` in the recursive translation function. -/
theorem nestedCore_congr (p₁ p₂ : JSVal → Nat → Except JSErr (Option ESQuery)) (cd : Nat)
    (value : JSVal) (esQuery : ESQuery) (h : ∀ q, p₁ q (cd + 1) = p₂ q (cd + 1)) :
    nestedCore p₁ cd value esQuery = nestedCore p₂ cd value esQuery := by
  unfold nestedCore
  cases value <;> simp only [h]

/-- Congruence of `childParentCore` in the recursive translation
function. -/
theorem childParentCore_congr (p₁ p₂ : JSVal → Nat → Except JSErr (Option ESQuery))
    (queryType : String) (cd : Nat) (value : JSVal) (esQuery : ESQuery)
    (h : ∀ q, p₁ q (cd + 1) = p₂ q (cd + 1)) :
    childParentCore p₁ queryType cd value esQuery =
      childParentCore p₂ queryType cd value esQuery := by
  unfold childParentCore
  cases value <;> simp only [h]

/-- Congruence of one reduction step in the recursive translation
function. -/
theorem reduceStep_congr (p₁ p₂ : JSVal → Nat → Except JSErr (Option ESQuery)) (idProp : String)
    (cd : Nat) (result : ESQuery) (kv : String × JSVal)
    (h : ∀ q, p₁ q (cd + 1) = p₂ q (cd + 1)) :
    reduceStep p₁ idProp cd result kv = reduceStep p₂ idProp cd result kv := by
  have h1 : orCore p₁ cd = orCore p₂ cd :=
    funext fun v => funext fun r => orCore_congr p₁ p₂ cd v r h
  have h2 : andCore p₁ cd = andCore p₂ cd :=
    funext fun v => funext fun r => andCore_congr p₁ p₂ cd v r h
  have h3 : nestedCore p₁ cd = nestedCore p₂ cd :=
    funext fun v => funext fun r => nestedCore_congr p₁ p₂ cd v r h
  have h4 : childParentCore p₁ "$child" cd = childParentCore p₂ "$child" cd :=
    funext fun v => funext fun r => childParentCore_congr p₁ p₂ "$child" cd v r h
  have h5 : childParentCore p₁ "$parent" cd = childParentCore p₂ "$parent" cd :=
    funext fun v => funext fun r => childParentCore_congr p₁ p₂ "$parent" cd v r h
  unfold reduceStep
  rw [h1, h2, h3, h4, h5]

/-- Unfolding of the translator on an object within the depth budget: the
reduction over the fields with the recursive translator itself at depth
plus one, followed by the sentinel rule. -/
theorem parseQueryRec_obj (fields : List (String × JSVal)) (idProp : String) (md cd : Nat)
    (h : cd ≤ md) :
    parseQueryRec (.obj fields) idProp md cd =
      (fields.foldlM
        (reduceStep (fun q d => parseQueryRec q idProp md d) idProp cd) {}).map
          queryResultOf := by
  have hfuel : md + 1 - cd = (md - cd) + 1 := by omega
  have hps : ∀ q, parseQueryFuel idProp md (md - cd) q (cd + 1) =
      parseQueryRec q idProp md (cd + 1) := by
    intro q
    unfold parseQueryRec
    congr 1
    omega
  have hstep : reduceStep (fun q d => parseQueryFuel idProp md (md - cd) q d) idProp cd =
      reduceStep (fun q d => parseQueryRec q idProp md d) idProp cd := by
    funext result kv
    exact reduceStep_congr _ _ idProp cd result kv hps
  have hL : parseQueryRec (.obj fields) idProp md cd =
      parseQueryFuel idProp md ((md - cd) + 1) (.obj fields) cd := by
    unfold parseQueryRec
    rw [hfuel]
  rw [hL, parseQueryFuel_obj_step, hstep, if_neg (Nat.not_lt.mpr h)]

/-- A key literally equal to $and under the id alias "id" dispatches to
the `$and` handler core. -/
theorem reduceStep_and (p : JSVal → Nat → Except JSErr (Option ESQuery)) (cd : Nat)
    (result : ESQuery) (v : JSVal) :
    reduceStep p "id" cd result ("$and", v) = andCore p cd v result := rfl

/-- Last element of a cons cell in terms of the last element of the
tail. -/
theorem getLast?_cons_resolve (m : α) (l : List α) :
    (m :: l).getLast? = some (match l.getLast? with
                              | some x => x
                              | none => m) := by
  induction l generalizing m with
  | nil => rfl
  | cons x xs ih =>
    rw [List.getLast?_cons_cons, ih x]

/-- Unrolling of the closed-form section concatenation. -/
theorem concatSection_cons (a : Option (List JSVal)) (p : Option (List JSVal))
    (ps : List (Option (List JSVal))) :
    concatSection a (p :: ps) =
      concatSection (match p with
                     | some l => some (a.getD [] ++ l)
                     | none => a) ps := by
  rcases p with _ | l
  · unfold concatSection
    rw [show (none :: ps).all Option.isNone = ps.all Option.isNone by simp]
    rfl
  · simp [concatSection, List.append_assoc]

/-- Unrolling of the closed-form last-wins combination. -/
theorem lastWins_cons (a : Option Int) (p : Option Int) (ps : List (Option Int)) :
    lastWins a (p :: ps) =
      lastWins (match p with
                | some m => some m
                | none => a) ps := by
  rcases p with _ | m
  · simp [lastWins]
  · unfold lastWins
    simp only [List.filterMap_cons, id_eq]
    rw [getLast?_cons_resolve m (ps.filterMap id)]
    rcases h : (ps.filterMap id).getLast? with _ | x <;> simp [h]

/-- Closed form of the fold of `$and` merge steps: each section is the
accumulator section concatenated with the sub-result sections in element
order, and minimum_should_match obeys last-wins. -/
theorem foldl_andMergeSections_closed (got : List ESQuery) (acc : ESQuery) :
    got.foldl andMergeSections acc =
      { must := concatSection acc.must (got.map (fun p => p.must)),
        filter := concatSection acc.filter (got.map (fun p => p.filter)),
        should := concatSection acc.should (got.map (fun p => p.should)),
        must_not := concatSection acc.must_not (got.map (fun p => p.must_not)),
        minimum_should_match :=
          lastWins acc.minimum_should_match
            (got.map (fun p => p.minimum_should_match)) } := by
  induction got generalizing acc with
  | nil =>
    rcases acc with ⟨m, f, s, mn, msm⟩
    rcases m <;> rcases f <;> rcases s <;> rcases mn <;> rcases msm <;>
      simp [concatSection, lastWins]
  | cons p rest ih =>
    simp only [List.foldl_cons, List.map_cons, ih (andMergeSections acc p)]
    rw [concatSection_cons, concatSection_cons, concatSection_cons, concatSection_cons,
        lastWins_cons]
    rcases p with ⟨pm, pf, ps, pmn, pmsm⟩
    rcases pm <;> rcases pf <;> rcases ps <;> rcases pmn <;> rcases pmsm <;> rfl

/-- Lookup after an in-place overwrite of an existing key. -/
theorem lookup_map_replace (c : Cache) (k : String) (e : CacheEntry)
    (h : (c.lookup k).isSome) :
    (c.map (fun kv => if kv.1 = k then (k, e) else kv)).lookup k = some e := by
  induction c with
  | nil => simp at h
  | cons x xs ih =>
    obtain ⟨x1, x2⟩ := x
    by_cases hk : x1 = k
    · subst hk
      have hhead : (fun kv : String × CacheEntry => if kv.1 = x1 then (x1, e) else kv) (x1, x2) =
          (x1, e) := by simp
      simp only [List.map_cons, hhead]
      simp [List.lookup]
    · have hhead : (fun kv : String × CacheEntry => if kv.1 = k then (k, e) else kv) (x1, x2) =
          (x1, x2) := by simp [hk]
      have hne : (k == x1) = false := by
        simp only [beq_eq_false_iff_ne, ne_eq]
        exact fun hc => hk hc.symm
      have h' : (xs.lookup k).isSome := by
        simpa [List.lookup, hne] using h
      simp only [List.map_cons, hhead]
      simp [List.lookup, hne, ih h']

/-- Lookup distributes to the right part of an append when the key is
absent on the left. -/
theorem lookup_append_right (c d : Cache) (k : String) (h : c.lookup k = none) :
    (c ++ d).lookup k = d.lookup k := by
  induction c with
  | nil => simp
  | cons x xs ih =>
    rcases hk : (k == x.1) with _ | _
    · have h' : xs.lookup k = none := by simpa [List.lookup, hk] using h
      simpa [List.lookup, hk] using ih h'
    · simp [List.lookup, hk] at h

/-- Map.set establishes the binding it wrote. -/
theorem cacheSet_lookup_self (c : Cache) (k : String) (e : CacheEntry) :
    (cacheSet c k e).lookup k = some e := by
  unfold cacheSet
  split_ifs with h
  · exact lookup_map_replace c k e h
  · have h0 : c.lookup k = none := by
      cases hc : c.lookup k
      · rfl
      · rw [hc] at h
        simp at h
    rw [lookup_append_right c _ k h0]
    simp [List.lookup]

/-- Unfolding of a top-level call on an object query: cache lookup first,
then on a miss the optional cleanup, the recursive translation and the
cache write. -/
theorem parseQueryTop_obj_unfold (cache : Cache) (now : Nat) (rnd : Bool)
    (fields : List (String × JSVal)) (idProp : String) (md : Nat) :
    parseQueryTop cache now rnd (.obj fields) idProp md =
      (match cache.lookup (hashQuery (.obj fields) idProp) with
       | some cached =>
         .ok ((match cached.result with
               | some r => some (roundTripES r)
               | none => none), cache)
       | none =>
         (match parseQueryRec (.obj fields) idProp md 0 with
          | .error e => .error e
          | .ok r => .ok (r, cacheSet (if rnd then cleanCache cache now else cache)
              (hashQuery (.obj fields) idProp) { result := r, timestamp := now }))) := rfl

/-- The per-key complexity costs are additive over object fields. -/
theorem complexityOfFields_append (fs gs : List (String × JSVal)) :
    complexityOfFields (fs ++ gs) = complexityOfFields fs + complexityOfFields gs := by
  induction fs with
  | nil => simp [complexityOfFields]
  | cons x xs ih =>
    obtain ⟨k, v⟩ := x
    simp [complexityOfFields, ih]
    omega

/-! Frame lemmas for the heap-level translator. -/

/-- Growth is reflexive. -/
theorem heapGrows_refl (h : Heap) : heapGrows h h :=
  ⟨⟨[], by simp⟩, Nat.le_refl _⟩

/-- Growth is transitive. -/
theorem heapGrows_trans {h₁ h₂ h₃ : Heap} (g₁ : heapGrows h₁ h₂) (g₂ : heapGrows h₂ h₃) :
    heapGrows h₁ h₃ := by
  obtain ⟨⟨t₁, e₁⟩, n₁⟩ := g₁
  obtain ⟨⟨t₂, e₂⟩, n₂⟩ := g₂
  exact ⟨⟨t₁ ++ t₂, by rw [e₂, e₁, List.append_assoc]⟩, Nat.le_trans n₁ n₂⟩

/-- The removeProps copy only appends a fresh cell. -/
theorem heapRemoveProps_grows (h : Heap) (r : Nat) (props : List String) :
    heapGrows h (heapRemoveProps h r props).1 := by
  exact ⟨⟨[(h.next, _)], rfl⟩, Nat.le_succ _⟩

/-- The sub-filter traversal preserves growth when the translation
function does. -/
theorem hMapParse_grows (parse : HVal → Nat → Heap → Except JSErr (Option ESQuery) × Heap)
    (cd : Nat) (hp : ∀ v d hh, heapGrows hh (parse v d hh).2) :
    ∀ (elems : List HVal) (h : Heap), heapGrows h (hMapParse parse cd elems h).2 := by
  intro elems
  induction elems with
  | nil => intro h; exact heapGrows_refl h
  | cons e rest ih =>
    intro h
    rcases hpe : parse e (cd + 1) h with ⟨res₁, h₁⟩
    have g₁ : heapGrows h h₁ := by
      have hx := hp e (cd + 1) h
      rw [hpe] at hx
      exact hx
    cases res₁ with
    | error err =>
      simp only [hMapParse, hpe]
      exact g₁
    | ok r =>
      rcases hmp : hMapParse parse cd rest h₁ with ⟨res₂, h₂⟩
      have g₂ : heapGrows h₁ h₂ := by
        have hx := ih h₁
        rw [hmp] at hx
        exact hx
      simp only [hMapParse, hpe, hmp]
      cases res₂ <;> exact heapGrows_trans g₁ g₂

/-- The `$or` core preserves growth. -/
theorem hOrCore_grows (parse : HVal → Nat → Heap → Except JSErr (Option ESQuery) × Heap)
    (cd : Nat) (hp : ∀ v d hh, heapGrows hh (parse v d hh).2) (value : HVal)
    (esQuery : ESQuery) (h : Heap) : heapGrows h (hOrCore parse cd value esQuery h).2 := by
  cases value with
  | ref r =>
    rcases hr : h.read r with _ | cell
    · simp only [hOrCore, hr]
      exact heapGrows_refl h
    · cases cell with
      | objCell fs =>
        simp only [hOrCore, hr]
        exact heapGrows_refl h
      | arrCell elems =>
        rcases hmp : hMapParse parse cd elems h with ⟨res, h'⟩
        have g : heapGrows h h' := by
          have hx := hMapParse_grows parse cd hp elems h
          rw [hmp] at hx
          exact hx
        simp only [hOrCore, hr, hmp]
        cases res <;> exact g
  | num n => exact heapGrows_refl h
  | nan => exact heapGrows_refl h
  | str s => exact heapGrows_refl h
  | bool b => exact heapGrows_refl h
  | null => exact heapGrows_refl h
  | undefined => exact heapGrows_refl h
  | func => exact heapGrows_refl h

/-- The `$and` core preserves growth. -/
theorem hAndCore_grows (parse : HVal → Nat → Heap → Except JSErr (Option ESQuery) × Heap)
    (cd : Nat) (hp : ∀ v d hh, heapGrows hh (parse v d hh).2) (value : HVal)
    (esQuery : ESQuery) (h : Heap) : heapGrows h (hAndCore parse cd value esQuery h).2 := by
  cases value with
  | ref r =>
    rcases hr : h.read r with _ | cell
    · simp only [hAndCore, hr]
      exact heapGrows_refl h
    · cases cell with
      | objCell fs =>
        simp only [hAndCore, hr]
        exact heapGrows_refl h
      | arrCell elems =>
        rcases hmp : hMapParse parse cd elems h with ⟨res, h'⟩
        have g : heapGrows h h' := by
          have hx := hMapParse_grows parse cd hp elems h
          rw [hmp] at hx
          exact hx
        simp only [hAndCore, hr, hmp]
        cases res <;> exact g
  | num n => exact heapGrows_refl h
  | nan => exact heapGrows_refl h
  | str s => exact heapGrows_refl h
  | bool b => exact heapGrows_refl h
  | null => exact heapGrows_refl h
  | undefined => exact heapGrows_refl h
  | func => exact heapGrows_refl h

/-- The `$nested` core preserves growth: the removeProps copy appends and
the recursive translation preserves. -/
theorem hNestedCore_grows (parse : HVal → Nat → Heap → Except JSErr (Option ESQuery) × Heap)
    (cd : Nat) (hp : ∀ v d hh, heapGrows hh (parse v d hh).2) (value : HVal)
    (esQuery : ESQuery) (h : Heap) : heapGrows h (hNestedCore parse cd value esQuery h).2 := by
  cases value with
  | ref r =>
    rcases hr : h.read r with _ | cell
    · simp only [hNestedCore, hr]
      exact heapGrows_refl h
    · cases cell with
      | arrCell elems =>
        simp only [hNestedCore, hr]
        exact heapGrows_refl h
      | objCell fields =>
        rcases hvt : hValidateType h (hGetField fields "$path") "$nested.$path" ["string"]
          with e | t
        · simp only [hNestedCore, hr, hvt]
          exact heapGrows_refl h
        · have g₁ : heapGrows h (heapRemoveProps h r ["$path"]).1 :=
            heapRemoveProps_grows h r ["$path"]
          rcases hpp : parse (.ref (heapRemoveProps h r ["$path"]).2) (cd + 1)
              (heapRemoveProps h r ["$path"]).1 with ⟨res, h'⟩
          have g₂ : heapGrows (heapRemoveProps h r ["$path"]).1 h' := by
            have hx := hp (.ref (heapRemoveProps h r ["$path"]).2) (cd + 1)
              (heapRemoveProps h r ["$path"]).1
            rw [hpp] at hx
            exact hx
          simp only [hNestedCore, hr, hvt, hpp]
          rcases res with e | ro
          · exact heapGrows_trans g₁ g₂
          · rcases ro with _ | sub <;> exact heapGrows_trans g₁ g₂
  | num n => exact heapGrows_refl h
  | nan => exact heapGrows_refl h
  | str s => exact heapGrows_refl h
  | bool b => exact heapGrows_refl h
  | null => exact heapGrows_refl h
  | undefined => exact heapGrows_refl h
  | func => exact heapGrows_refl h

/-- The `$childOr$parent` core preserves growth. -/
theorem hChildParentCore_grows
    (parse : HVal → Nat → Heap → Except JSErr (Option ESQuery) × Heap) (queryType : String)
    (cd : Nat) (hp : ∀ v d hh, heapGrows hh (parse v d hh).2) (value : HVal)
    (esQuery : ESQuery) (h : Heap) :
    heapGrows h (hChildParentCore parse queryType cd value esQuery h).2 := by
  cases value with
  | ref r =>
    rcases hr : h.read r with _ | cell
    · simp only [hChildParentCore, hr]
      exact heapGrows_refl h
    · cases cell with
      | arrCell elems =>
        simp only [hChildParentCore, hr]
        exact heapGrows_refl h
      | objCell fields =>
        rcases hvt : hValidateType h (hGetField fields "$type") (queryType ++ ".$type") ["string"]
          with e | t
        · simp only [hChildParentCore, hr, hvt]
          exact heapGrows_refl h
        · have g₁ : heapGrows h (heapRemoveProps h r ["$type"]).1 :=
            heapRemoveProps_grows h r ["$type"]
          rcases hpp : parse (.ref (heapRemoveProps h r ["$type"]).2) (cd + 1)
              (heapRemoveProps h r ["$type"]).1 with ⟨res, h'⟩
          have g₂ : heapGrows (heapRemoveProps h r ["$type"]).1 h' := by
            have hx := hp (.ref (heapRemoveProps h r ["$type"]).2) (cd + 1)
              (heapRemoveProps h r ["$type"]).1
            rw [hpp] at hx
            exact hx
          simp only [hChildParentCore, hr, hvt, hpp]
          rcases res with e | ro
          · exact heapGrows_trans g₁ g₂
          · rcases ro with _ | sub <;> exact heapGrows_trans g₁ g₂
  | num n => exact heapGrows_refl h
  | nan => exact heapGrows_refl h
  | str s => exact heapGrows_refl h
  | bool b => exact heapGrows_refl h
  | null => exact heapGrows_refl h
  | undefined => exact heapGrows_refl h
  | func => exact heapGrows_refl h

set_option maxHeartbeats 1600000 in
/-- One heap-level reduction step preserves growth. -/
theorem hReduceStep_grows (parse : HVal → Nat → Heap → Except JSErr (Option ESQuery) × Heap)
    (idProp : String) (cd : Nat) (hp : ∀ v d hh, heapGrows hh (parse v d hh).2)
    (result : ESQuery) (kv : String × HVal) (h : Heap) :
    heapGrows h (hReduceStep parse idProp cd result kv h).2 := by
  obtain ⟨k, v⟩ := kv
  simp only [hReduceStep]
  split_ifs <;>
    first
      | exact hOrCore_grows parse cd hp v result h
      | exact hAndCore_grows parse cd hp v result h
      | exact hNestedCore_grows parse cd hp v result h
      | exact hChildParentCore_grows parse "$child" cd hp v result h
      | exact hChildParentCore_grows parse "$parent" cd hp v result h
      | exact heapGrows_refl h
      | ((repeat' split) <;> exact heapGrows_refl h)

/-- The heap-threading field fold preserves growth when its step
does. -/
theorem hFoldFields_grows (step : ESQuery → (String × HVal) → Heap → Except JSErr ESQuery × Heap)
    (hp : ∀ acc kv hh, heapGrows hh (step acc kv hh).2) :
    ∀ (fields : List (String × HVal)) (acc : ESQuery) (h : Heap),
      heapGrows h (hFoldFields step fields acc h).2 := by
  intro fields
  induction fields with
  | nil => intro acc h; exact heapGrows_refl h
  | cons kv rest ih =>
    intro acc h
    simp only [hFoldFields]
    rcases hs : step acc kv h with ⟨res, h₁⟩
    have g₁ : heapGrows h h₁ := by
      have := hp acc kv h
      rw [hs] at this
      exact this
    cases res with
    | error e => exact g₁
    | ok acc' =>
      have g₂ : heapGrows h₁ (hFoldFields step rest acc' h₁).2 := ih acc' h₁
      exact heapGrows_trans g₁ g₂

/-- The fuel-indexed heap-level translator only grows the heap. -/
theorem parseHFuel_grows (idProp : String) (md : Nat) :
    ∀ (fuel : Nat) (v : HVal) (cd : Nat) (h : Heap),
      heapGrows h (parseHFuel idProp md fuel v cd h).2 := by
  intro fuel
  induction fuel with
  | zero =>
    intro v cd h
    rcases hvt : hValidateType h v "query" ["object", "null", "undefined"] with e | t
    · cases v <;> simp only [parseHFuel, hvt] <;> exact heapGrows_refl h
    · cases v <;> simp only [parseHFuel, hvt] <;>
        first
          | exact heapGrows_refl h
          | (split_ifs <;> exact heapGrows_refl h)
  | succ f ih =>
    intro v cd h
    rcases hvt : hValidateType h v "query" ["object", "null", "undefined"] with e | t
    · cases v <;> simp only [parseHFuel, hvt] <;> exact heapGrows_refl h
    · have hstep : ∀ (acc : ESQuery) (kv : String × HVal) (hh : Heap),
          heapGrows hh
            ((hReduceStep (fun q' d h' => parseHFuel idProp md f q' d h') idProp cd) acc kv
              hh).2 := by
        intro acc kv hh
        exact hReduceStep_grows _ idProp cd (fun v' d' hh' => ih v' d' hh') acc kv hh
      cases v with
      | ref r =>
        by_cases hd : cd > md
        · simp only [parseHFuel, hvt, if_pos hd]
          exact heapGrows_refl h
        · rcases hr : h.read r with _ | cell
          · simp only [parseHFuel, hvt, if_neg hd, hr]
            exact heapGrows_refl h
          · cases cell with
            | arrCell elems =>
              simp only [parseHFuel, hvt, if_neg hd, hr]
              exact heapGrows_refl h
            | objCell fields =>
              rcases hff : hFoldFields
                  (hReduceStep (fun q' d h' => parseHFuel idProp md f q' d h') idProp cd)
                  fields {} h with ⟨res, h'⟩
              have g : heapGrows h h' := by
                have hx := hFoldFields_grows _ hstep fields {} h
                rw [hff] at hx
                exact hx
              simp only [parseHFuel, hvt, if_neg hd, hr, hff]
              cases res <;> exact g
      | num n =>
        simp only [parseHFuel, hvt]
        exact heapGrows_refl h
      | nan =>
        simp only [parseHFuel, hvt]
        exact heapGrows_refl h
      | str s =>
        simp only [parseHFuel, hvt]
        exact heapGrows_refl h
      | bool b =>
        simp only [parseHFuel, hvt]
        exact heapGrows_refl h
      | null =>
        simp only [parseHFuel, hvt]
        exact heapGrows_refl h
      | undefined =>
        simp only [parseHFuel, hvt]
        exact heapGrows_refl h
      | func =>
        simp only [parseHFuel, hvt]
        exact heapGrows_refl h

/-- Deleting props one by one on the copy equals filtering the fields by
membership. -/
theorem foldl_deleteKey_eq_filter (props : List String) (fs : List (String × HVal)) :
    props.foldl deleteKey fs = fs.filter (fun kv => !(props.contains kv.1)) := by
  induction props generalizing fs with
  | nil => simp
  | cons p ps ih =>
    simp only [List.foldl_cons]
    rw [ih (deleteKey fs p)]
    unfold deleteKey
    rw [List.filter_filter]
    congr 1
    funext kv
    by_cases h1 : kv.1 ∈ ps <;> by_cases h2 : kv.1 = p <;>
      simp [h1, h2, List.mem_cons]

/-- Lookup of a pre-existing key is unchanged by an append on the
right. -/
theorem heap_lookup_append_left (c d : List (Nat × HCell)) (k : Nat) (v : HCell)
    (h : c.lookup k = some v) : (c ++ d).lookup k = some v := by
  induction c with
  | nil => simp [List.lookup] at h
  | cons x xs ih =>
    rcases hk : (k == x.1) with _ | _
    · have h' : xs.lookup k = some v := by simpa [List.lookup, hk] using h
      simpa [List.lookup, hk] using ih h'
    · simpa [List.lookup, hk] using h

/-- A number strictly above every key of the list is absent from it. -/
theorem heap_lookup_fresh (cells : List (Nat × HCell)) (n : Nat)
    (hlt : ∀ p ∈ cells, p.1 < n) : cells.lookup n = none := by
  induction cells with
  | nil => rfl
  | cons x xs ih =>
    have hx : x.1 < n := hlt x (List.mem_cons_self x xs)
    have hk : (n == x.1) = false := by
      simp only [beq_eq_false_iff_ne, ne_eq]
      omega
    simp only [List.lookup, hk]
    exact ih (fun p hp => hlt p (List.mem_cons_of_mem x hp))

/-- Lookup falls through to the right part of an append when the key is
absent on the left. -/
theorem heap_lookup_append_right (c d : List (Nat × HCell)) (k : Nat) (h : c.lookup k = none) :
    (c ++ d).lookup k = d.lookup k := by
  induction c with
  | nil => simp
  | cons x xs ih =>
    rcases hk : (k == x.1) with _ | _
    · have h' : xs.lookup k = none := by simpa [List.lookup, hk] using h
      simpa [List.lookup, hk] using ih h'
    · simp [List.lookup, hk] at h

/-! Claim theorems. -/

/-- C1 (amended): after the key-by-key reduction the translator returns
the no-query sentinel (null) if and only if the accumulator has zero
PRESENT keys; a section that is present but holds an empty array (and a
present minimum_should_match) counts as a key, so an accumulator whose
sections are all present-but-empty arrays is returned as that
accumulator, not as the sentinel. -/
theorem claim_C1_sentinel_iff_no_keys (fields : List (String × JSVal)) (idProp : String)
    (md cd : Nat) (bool : ESQuery) (h : cd ≤ md)
    (hred : fields.foldlM
      (reduceStep (fun q d => parseQueryRec q idProp md d) idProp cd) {} = .ok bool) :
    parseQueryRec (.obj fields) idProp md cd = .ok (queryResultOf bool) ∧
      (queryResultOf bool = none ↔ bool.numKeys = 0) ∧
      (bool.numKeys ≠ 0 → queryResultOf bool = some bool) := by
  refine ⟨?_, ?_, ?_⟩
  · rw [parseQueryRec_obj fields idProp md cd h, hred]
    rfl
  · unfold queryResultOf
    split_ifs with hn
    · simp [hn]
    · simp [not_not.mp hn]
  · intro hn
    simp [queryResultOf, hn]

/-- C1 witness: a concrete instance of the amended claim. -/
theorem claim_C1_witness :
    parseQueryRec (.obj [("foo", .arr [])]) "id" 50 0 =
        .ok (queryResultOf { filter := some [] }) ∧
      (queryResultOf { filter := some [] } = none ↔
        ESQuery.numKeys { filter := some [] } = 0) ∧
      (ESQuery.numKeys { filter := some [] } ≠ 0 →
        queryResultOf { filter := some [] } = some { filter := some [] }) :=
  claim_C1_sentinel_iff_no_keys [("foo", .arr [])] "id" 50 0 { filter := some [] }
    (by omega) rfl

/-- C1 counterexample: translating a field whose value is an empty array
yields an accumulator whose only section is a present-but-empty filter
array, and the translator reports that accumulator, not the null
sentinel, although it has zero non-empty clause sections. -/
theorem claim_C1_counterexample :
    parseQueryRec (.obj [("foo", .arr [])]) "id" 50 0 = .ok (some { filter := some [] }) ∧
      (some { filter := some [] } : Option ESQuery) ≠ none ∧
      ({ filter := some [] } : ESQuery).filter = some [] := by
  refine ⟨rfl, by simp, rfl⟩

/-- C3 (confirmed): the `$or` handler translates every element of its
array at depth plus one, discards the elements that translate to the
no-query sentinel, wraps each surviving translation as a bool clause
appended to the should section, and always sets minimum_should_match to
1, leaving the other sections untouched. -/
theorem claim_C3_or_semantics (elems : List JSVal) (esQuery : ESQuery) (idProp : String)
    (md cd : Nat) (parsed : List (Option ESQuery))
    (h : elems.mapM (fun sub => parseQueryRec sub idProp md (cd + 1)) = .ok parsed) :
    «$or» (.arr elems) esQuery idProp md cd = .ok
      { esQuery with
        should := some (esQuery.should.getD [] ++
          (parsed.filterMap id).map (fun p => JSVal.obj [("bool", esQueryToJSVal p)])),
        minimum_should_match := some 1 } := by
  unfold «$or» orCore
  simp only []
  rw [h]
  rfl

/-- C3 witness: two sub-filters of which one translates to the sentinel
produce one wrapped should clause and minimum_should_match 1. -/
theorem claim_C3_witness :
    «$or» (.arr [.obj [("a", .num 1)], .obj []]) {} "id" 50 0 = .ok
      { should := some [.obj [("bool", .obj [("filter", .arr [termClause "a" (.num 1)])])]],
        minimum_should_match := some 1 } :=
  claim_C3_or_semantics [.obj [("a", .num 1)], .obj []] {} "id" 50 0
    [some { filter := some [termClause "a" (.num 1)] }, none] rfl

/-- C7 (amended): the special-operator check is performed on the
possibly-rewritten key, so the id-alias rewrite and operator dispatch are
mutually exclusive the other way round than claimed: a key equal to the
configured id alias is never dispatched to a special-operator handler
(the rewrite target _id is not an operator name), and when the id alias
itself names a special operator, that key is rewritten to _id and
processed as a plain field, not dispatched to the handler. -/
theorem claim_C7_alias_never_dispatched (parse : JSVal → Nat → Except JSErr (Option ESQuery))
    (idProp : String) (cd : Nat) (result : ESQuery) (value : JSVal) :
    reduceStep parse idProp cd result (idProp, value) =
      (match validateType value "_id" plainFieldValidators with
       | .error e => .error e
       | .ok _ =>
         match value with
         | .obj vfields => .ok (processCriteria "_id" vfields result)
         | v => .ok (processTermQuery "_id" v result)) := by
  unfold reduceStep
  simp only [if_pos rfl]
  rfl

/-- C7 counterexample: with the id alias configured as the string $or, a
top-level $or key is rewritten to _id and translated as a plain term
query, while the `$or` handler itself would have rejected the same
payload with a type error, so the key is not dispatched to the
handler. -/
theorem claim_C7_counterexample :
    parseQueryRec (.obj [("$or", .num 5)]) "$or" 50 0 =
        .ok (some { filter := some [termClause "_id" (.num 5)] }) ∧
      «$or» (.num 5) {} "$or" 50 0 =
        .error (.badRequest (typeErrMsg "$or" ["array"] "number")) :=
  ⟨rfl, rfl⟩

/-- C9 (confirmed): the handlers for $sqs, $nested, $child, $parent,
$exists and $missing silently ignore a null or undefined payload,
returning the accumulator unchanged, while $or and $and run their array
assertion unconditionally and reject null and undefined payloads with a
BadRequest type error. -/
theorem claim_C9_null_undefined_payloads (esQuery : ESQuery) (idProp : String) (md cd : Nat) :
    «$sqs» .null esQuery = .ok esQuery ∧
    «$sqs» .undefined esQuery = .ok esQuery ∧
    «$nested» .null esQuery idProp md cd = .ok esQuery ∧
    «$nested» .undefined esQuery idProp md cd = .ok esQuery ∧
    «$childOr$parent» "$child" .null esQuery idProp md cd = .ok esQuery ∧
    «$childOr$parent» "$child" .undefined esQuery idProp md cd = .ok esQuery ∧
    «$childOr$parent» "$parent" .null esQuery idProp md cd = .ok esQuery ∧
    «$childOr$parent» "$parent" .undefined esQuery idProp md cd = .ok esQuery ∧
    «$existsOr$missing» "must" .null esQuery = .ok esQuery ∧
    «$existsOr$missing» "must" .undefined esQuery = .ok esQuery ∧
    «$existsOr$missing» "must_not" .null esQuery = .ok esQuery ∧
    «$existsOr$missing» "must_not" .undefined esQuery = .ok esQuery ∧
    «$or» .null esQuery idProp md cd =
      .error (.badRequest (typeErrMsg "$or" ["array"] "null")) ∧
    «$or» .undefined esQuery idProp md cd =
      .error (.badRequest (typeErrMsg "$or" ["array"] "undefined")) ∧
    «$and» .null esQuery idProp md cd =
      .error (.badRequest (typeErrMsg "$and" ["array"] "null")) ∧
    «$and» .undefined esQuery idProp md cd =
      .error (.badRequest (typeErrMsg "$and" ["array"] "undefined")) :=
  ⟨rfl, rfl, rfl, rfl, rfl, rfl, rfl, rfl, rfl, rfl, rfl, rfl, rfl, rfl, rfl, rfl⟩

/-- C2 (confirmed): a filter built as N levels of nested `$and: [ ... ]`
around a leaf filter, translated from starting depth cd, fails with the
BadRequest depth-exceeded error naming the configured maximum exactly
when cd + N exceeds maxDepth and succeeds otherwise; each `$and` level
increments the recursion depth by exactly 1, which is what the cd + N
bound expresses. At the top level (cd = 0) this is the claim for every
maxDepth, in particular 0, 1 and 50. -/
theorem claim_C2_depth_rejection (N md cd : Nat) :
    (cd + N > md → parseQueryRec (nestAnd andDepthLeaf N) "id" md cd =
      .error (.badRequest (depthErrMsg md))) ∧
    (cd + N ≤ md → parseQueryRec (nestAnd andDepthLeaf N) "id" md cd =
      .ok (some andDepthLeafES)) := by
  induction N generalizing cd with
  | zero =>
    refine ⟨fun hgt => ?_, fun hle => ?_⟩
    · exact parseQueryRec_depthExceeded _ "id" md cd (by omega)
    · rw [show nestAnd andDepthLeaf 0 = .obj [("a", .num 1)] from rfl,
          parseQueryRec_obj _ "id" md cd (by omega)]
      rfl
  | succ n ih =>
    refine ⟨fun hgt => ?_, fun hle => ?_⟩
    · by_cases hcd : cd > md
      · exact parseQueryRec_depthExceeded _ "id" md cd hcd
      · rw [show nestAnd andDepthLeaf (n + 1) =
              .obj [("$and", .arr [nestAnd andDepthLeaf n])] from rfl,
            parseQueryRec_obj _ "id" md cd (by omega)]
        simp only [List.foldlM_cons, List.foldlM_nil, reduceStep_and, andCore,
          List.mapM_cons, List.mapM_nil]
        rw [(ih (cd + 1)).1 (by omega)]
        rfl
    · rw [show nestAnd andDepthLeaf (n + 1) =
            .obj [("$and", .arr [nestAnd andDepthLeaf n])] from rfl,
          parseQueryRec_obj _ "id" md cd (by omega)]
      simp only [List.foldlM_cons, List.foldlM_nil, reduceStep_and, andCore,
        List.mapM_cons, List.mapM_nil]
      rw [(ih (cd + 1)).2 (by omega)]
      rfl

/-- C2 witness: concrete instances for maxDepth 0, 1 and 50, failing at
N = maxDepth + 1 and succeeding at N = maxDepth. -/
theorem claim_C2_witness :
    parseQueryRec (nestAnd andDepthLeaf 1) "id" 0 0 =
        .error (.badRequest (depthErrMsg 0)) ∧
      parseQueryRec (nestAnd andDepthLeaf 0) "id" 0 0 = .ok (some andDepthLeafES) ∧
      parseQueryRec (nestAnd andDepthLeaf 2) "id" 1 0 =
        .error (.badRequest (depthErrMsg 1)) ∧
      parseQueryRec (nestAnd andDepthLeaf 1) "id" 1 0 = .ok (some andDepthLeafES) ∧
      parseQueryRec (nestAnd andDepthLeaf 51) "id" 50 0 =
        .error (.badRequest (depthErrMsg 50)) ∧
      parseQueryRec (nestAnd andDepthLeaf 50) "id" 50 0 = .ok (some andDepthLeafES) :=
  ⟨(claim_C2_depth_rejection 1 0 0).1 (by omega),
   (claim_C2_depth_rejection 0 0 0).2 (by omega),
   (claim_C2_depth_rejection 2 1 0).1 (by omega),
   (claim_C2_depth_rejection 1 1 0).2 (by omega),
   (claim_C2_depth_rejection 51 50 0).1 (by omega),
   (claim_C2_depth_rejection 50 50 0).2 (by omega)⟩

/-- C4 (confirmed): the `$and` handler translates every element of its
array at depth plus one, and merges the non-sentinel sub-results into the
accumulator section by section by concatenation in element order, while a
sub-result minimum_should_match overwrites the accumulator value with
last-wins semantics. -/
theorem claim_C4_and_semantics (elems : List JSVal) (esQuery : ESQuery) (idProp : String)
    (md cd : Nat) (parsed : List (Option ESQuery))
    (h : elems.mapM (fun sub => parseQueryRec sub idProp md (cd + 1)) = .ok parsed) :
    «$and» (.arr elems) esQuery idProp md cd = .ok
      { must := concatSection esQuery.must ((parsed.filterMap id).map (fun p => p.must)),
        filter := concatSection esQuery.filter ((parsed.filterMap id).map (fun p => p.filter)),
        should := concatSection esQuery.should ((parsed.filterMap id).map (fun p => p.should)),
        must_not :=
          concatSection esQuery.must_not ((parsed.filterMap id).map (fun p => p.must_not)),
        minimum_should_match :=
          lastWins esQuery.minimum_should_match
            ((parsed.filterMap id).map (fun p => p.minimum_should_match)) } := by
  unfold «$and» andCore
  simp only []
  rw [h]
  show Except.ok ((parsed.filterMap id).foldl andMergeSections esQuery) = _
  rw [foldl_andMergeSections_closed]

/-- C4 witness: an `$and` over an `$or` block and a plain field
concatenates the should and filter sections and keeps the last (only)
minimum_should_match. -/
theorem claim_C4_witness :
    «$and» (.arr [.obj [("$or", .arr [.obj [("a", .num 1)]])], .obj [("b", .num 2)]])
        {} "id" 50 0 = .ok
      { filter := some [termClause "b" (.num 2)],
        should := some [.obj [("bool", .obj [("filter", .arr [termClause "a" (.num 1)])])]],
        minimum_should_match := some 1 } :=
  claim_C4_and_semantics [.obj [("$or", .arr [.obj [("a", .num 1)]])], .obj [("b", .num 2)]]
    {} "id" 50 0
    [some { should := some [.obj [("bool", .obj [("filter", .arr [termClause "a" (.num 1)])])]],
            minimum_should_match := some 1 },
     some { filter := some [termClause "b" (.num 2)] }] rfl

/-- C5 (amended): calling translate twice in succession on the same
filter object and alias serves the second call from the content-addressed
cache, and the second result is the JSON round trip of the first result
(the deep copy made on a cache hit); the two results are structurally
equal whenever that round trip is the identity on the first result, which
holds for every result free of undefined, function and NaN values, but
not in general, since the round-trip copy drops undefined-valued
properties. -/
theorem claim_C5_translate_twice (fields : List (String × JSVal)) (idProp : String)
    (cache : Cache) (now₁ now₂ : Nat) (rnd₁ rnd₂ : Bool) (md : Nat)
    (r : Option ESQuery) (c₁ : Cache)
    (hmiss : cache.lookup (hashQuery (.obj fields) idProp) = none)
    (h₁ : parseQueryTop cache now₁ rnd₁ (.obj fields) idProp md = .ok (r, c₁)) :
    parseQueryTop c₁ now₂ rnd₂ (.obj fields) idProp md = .ok (r.map roundTripES, c₁) ∧
      (r.map roundTripES = r →
        parseQueryTop c₁ now₂ rnd₂ (.obj fields) idProp md = .ok (r, c₁)) := by
  rw [parseQueryTop_obj_unfold, hmiss] at h₁
  rcases hr : parseQueryRec (.obj fields) idProp md 0 with e | r'
  · rw [hr] at h₁
    exact absurd h₁ (by simp)
  · rw [hr] at h₁
    simp only [Except.ok.injEq, Prod.mk.injEq] at h₁
    obtain ⟨hr', hc⟩ := h₁
    have hsec : parseQueryTop c₁ now₂ rnd₂ (.obj fields) idProp md =
        .ok (r.map roundTripES, c₁) := by
      rw [← hc, parseQueryTop_obj_unfold, cacheSet_lookup_self, ← hr']
      rcases r' with _ | rr <;> rfl
    exact ⟨hsec, fun heq => by rw [hsec, heq]⟩

/-- C5 witness: a concrete second call served from the cache written by
the first, with the round trip the identity on this result. -/
theorem claim_C5_witness :
    parseQueryTop
        [(hashQuery (.obj [("a", .num 1)]) "id",
          { result := some { filter := some [termClause "a" (.num 1)] }, timestamp := 0 })]
        3 true (.obj [("a", .num 1)]) "id" 50 =
      .ok ((some { filter := some [termClause "a" (.num 1)] }).map roundTripES,
        [(hashQuery (.obj [("a", .num 1)]) "id",
          { result := some { filter := some [termClause "a" (.num 1)] }, timestamp := 0 })]) ∧
      ((some { filter := some [termClause "a" (.num 1)] }).map roundTripES =
          some { filter := some [termClause "a" (.num 1)] } →
        parseQueryTop
            [(hashQuery (.obj [("a", .num 1)]) "id",
              { result := some { filter := some [termClause "a" (.num 1)] }, timestamp := 0 })]
            3 true (.obj [("a", .num 1)]) "id" 50 =
          .ok (some { filter := some [termClause "a" (.num 1)] },
            [(hashQuery (.obj [("a", .num 1)]) "id",
              { result := some { filter := some [termClause "a" (.num 1)] },
                timestamp := 0 })])) :=
  claim_C5_translate_twice [("a", .num 1)] "id" [] 0 3 false true 50
    (some { filter := some [termClause "a" (.num 1)] })
    [(hashQuery (.obj [("a", .num 1)]) "id",
      { result := some { filter := some [termClause "a" (.num 1)] }, timestamp := 0 })]
    rfl rfl

/-- C5 counterexample: for the filter with an undefined-valued field, the
first call returns a term clause carrying the undefined value, while the
second call returns the cached deep copy in which the JSON round trip has
dropped the undefined-valued property, so the two results are not
structurally equal. -/
theorem claim_C5_counterexample :
    parseQueryTop [] 0 false (.obj [("a", .undefined)]) "id" 50 =
      .ok (some { filter := some [termClause "a" .undefined] },
        [(hashQuery (.obj [("a", .undefined)]) "id",
          { result := some { filter := some [termClause "a" .undefined] },
            timestamp := 0 })]) ∧
    parseQueryTop
        [(hashQuery (.obj [("a", .undefined)]) "id",
          { result := some { filter := some [termClause "a" .undefined] }, timestamp := 0 })]
        0 false (.obj [("a", .undefined)]) "id" 50 =
      .ok (some { filter := some [.obj [("term", .obj [])]] },
        [(hashQuery (.obj [("a", .undefined)]) "id",
          { result := some { filter := some [termClause "a" .undefined] },
            timestamp := 0 })]) ∧
    (some { filter := some [.obj [("term", .obj [])]] } : Option ESQuery) ≠
      some { filter := some [termClause "a" .undefined] } := by
  refine ⟨rfl, rfl, ?_⟩
  simp [termClause]

/-- C6 (amended): the cache read path performs no age check at all: for
every cache state holding an entry under the query key, a top-level
translate call returns that entry (round-trip copied) for every current
time, including times at which the entry is older than CACHE_MAX_AGE;
stale entries are removed only by the eviction pass, which runs on a
random fraction of cache-miss calls, so a top-level call can return a
cached result arbitrarily older than the configured max age. -/
theorem claim_C6_stale_reads (cache : Cache) (now : Nat) (rnd : Bool)
    (fields : List (String × JSVal)) (idProp : String) (md : Nat) (entry : CacheEntry)
    (hhit : cache.lookup (hashQuery (.obj fields) idProp) = some entry) :
    parseQueryTop cache now rnd (.obj fields) idProp md =
      .ok ((match entry.result with
            | some r => some (roundTripES r)
            | none => none), cache) := by
  rw [parseQueryTop_obj_unfold, hhit]

/-- C6 witness: a hit on an entry whose age exceeds the max age. -/
theorem claim_C6_witness :
    parseQueryTop
        [(hashQuery (.obj [("a", .num 1)]) "id",
          { result := some { filter := some [termClause "a" (.num 2)] }, timestamp := 0 })]
        (CACHE_MAX_AGE + 1) false (.obj [("a", .num 1)]) "id" 50 =
      .ok ((match (some { filter := some [termClause "a" (.num 2)] } : Option ESQuery) with
            | some r => some (roundTripES r)
            | none => none),
        [(hashQuery (.obj [("a", .num 1)]) "id",
          { result := some { filter := some [termClause "a" (.num 2)] }, timestamp := 0 })]) :=
  claim_C6_stale_reads
    [(hashQuery (.obj [("a", .num 1)]) "id",
      { result := some { filter := some [termClause "a" (.num 2)] }, timestamp := 0 })]
    (CACHE_MAX_AGE + 1) false [("a", .num 1)] "id" 50
    { result := some { filter := some [termClause "a" (.num 2)] }, timestamp := 0 } rfl

/-- C6 counterexample: a cache state holding, under the key of the query,
an entry of age CACHE_MAX_AGE + 1 whose stored result differs from the
fresh translation; the top-level call returns the stale cached result,
not the fresh translation, although the entry is older than the
configured max age. -/
theorem claim_C6_counterexample :
    (CACHE_MAX_AGE + 1) - 0 > CACHE_MAX_AGE ∧
    parseQueryTop
        [(hashQuery (.obj [("a", .num 1)]) "id",
          { result := some { filter := some [termClause "a" (.num 2)] }, timestamp := 0 })]
        (CACHE_MAX_AGE + 1) false (.obj [("a", .num 1)]) "id" 50 =
      .ok (some { filter := some [termClause "a" (.num 2)] },
        [(hashQuery (.obj [("a", .num 1)]) "id",
          { result := some { filter := some [termClause "a" (.num 2)] }, timestamp := 0 })]) ∧
    parseQueryRec (.obj [("a", .num 1)]) "id" 50 0 =
      .ok (some { filter := some [termClause "a" (.num 1)] }) ∧
    (some { filter := some [termClause "a" (.num 2)] } : Option ESQuery) ≠
      some { filter := some [termClause "a" (.num 1)] } := by
  refine ⟨by omega, rfl, rfl, ?_⟩
  simp [termClause]

/-- C8 (amended): adding one wildcard, regexp or script operator as a
fresh key of an object strictly increases the computed complexity score
(the cost model recurses into object fields, logical-operator arrays and
relationship payloads, so the same holds at any such recursed-into
position); meanwhile the contribution of an array value under a plain
field key is the capped 1 + min(length, 100), bounded regardless of the
actual length. The strict increase does NOT hold at positions the cost
model does not recurse into, such as inside a plain-field array (see the
counterexample), which is what the original claim asserted with its
quantification over substitutions anywhere in the structure. -/
theorem claim_C8_complexity_surcharges (fields : List (String × JSVal)) (k : String)
    (v : JSVal) (key2 : String) (elems : List JSVal)
    (hk : k = "$wildcard" ∨ k = "$regexp" ∨ k = "$script")
    (hkey2 : key2 ∉ ["$wildcard", "$regexp", "$fuzzy", "$prefix", "$script", "$or", "$and",
      "$nested", "$child", "$parent"]) :
    calculateQueryComplexity (.obj (fields ++ [(k, v)])) >
        calculateQueryComplexity (.obj fields) ∧
      calculateQueryComplexity (.obj [(key2, .arr elems)]) = 1 + min elems.length 100 ∧
      min elems.length 100 ≤ 100 := by
  simp only [List.mem_cons, List.mem_singleton, not_or] at hkey2
  obtain ⟨h1, h2, h3, h4, h5, h6, h7, h8, h9, h10, -⟩ := hkey2
  refine ⟨?_, ?_, Nat.min_le_right _ _⟩
  · have hadd : calculateQueryComplexity (.obj (fields ++ [(k, v)])) =
        complexityOfFields fields + (1 + complexityOfKey k v) := by
      simp [calculateQueryComplexity, complexityOfFields_append, complexityOfFields]
    have hbase : calculateQueryComplexity (.obj fields) = complexityOfFields fields := by
      simp [calculateQueryComplexity]
    have hpos : 0 < complexityOfKey k v := by
      rcases hk with hk | hk | hk <;> subst hk <;> simp [complexityOfKey.eq_def]
    omega
  · simp [calculateQueryComplexity, complexityOfFields, complexityOfKey.eq_def,
      h1, h2, h3, h4, h5, h6, h7, h8, h9, h10]

/-- C8 witness: appending a $script key to a one-field object strictly
increases the score, and a 150-element plain array contributes the capped
cost 1 + 100. -/
theorem claim_C8_witness :
    calculateQueryComplexity (.obj ([("a", .num 1)] ++ [("$script", .str "s")])) >
        calculateQueryComplexity (.obj [("a", .num 1)]) ∧
      calculateQueryComplexity (.obj [("tags", .arr (List.replicate 150 (.num 1)))]) =
        1 + min (List.replicate 150 (JSVal.num 1)).length 100 ∧
      min (List.replicate 150 (JSVal.num 1)).length 100 ≤ 100 :=
  claim_C8_complexity_surcharges [("a", .num 1)] "$script" (.str "s") "tags"
    (List.replicate 150 (.num 1)) (by simp) (by simp)

/-- C8 counterexample: adding a $wildcard operator inside an array that
sits under a plain field key leaves the score unchanged (the array branch
of the cost model counts only min(length, 100) and ignores the array
contents), so the modified query is not strictly more complex than the
original. -/
theorem claim_C8_counterexample :
    calculateQueryComplexity (.obj [("a", .arr [.obj [("$wildcard", .str "x")]])]) = 2 ∧
      calculateQueryComplexity (.obj [("a", .arr [.obj []])]) = 2 ∧
      ¬(calculateQueryComplexity (.obj [("a", .arr [.obj [("$wildcard", .str "x")]])]) >
        calculateQueryComplexity (.obj [("a", .arr [.obj []])])) := by
  have h1 : calculateQueryComplexity (.obj [("a", .arr [.obj [("$wildcard", .str "x")]])]) = 2 := by
    simp [calculateQueryComplexity, complexityOfFields, complexityOfKey]
  have h2 : calculateQueryComplexity (.obj [("a", .arr [.obj []])]) = 2 := by
    simp [calculateQueryComplexity, complexityOfFields, complexityOfKey]
  exact ⟨h1, h2, by rw [h1, h2]; omega⟩

/-- C10 (confirmed): the heap-level translator returns (or fails)
without mutating its input: it only ever appends freshly allocated cells
to the heap, so the cell list of the input heap survives unchanged as a
prefix — the caller's query object and every nested value it references
are untouched. The only allocation is the removeProps shallow copy used
by the $nested, $child and $parent handlers: it also leaves every
pre-existing cell unchanged, and the fresh copy holds exactly the input
object's fields minus the stripped properties, sharing (not cloning) the
remaining values. The accumulator needs no heap cell at all: it is
created per call from a fresh object literal and never aliases the
input. -/
theorem claim_C10_no_input_mutation (h : Heap) (query : HVal) (idProp : String) (md cd : Nat)
    (res : Except JSErr (Option ESQuery)) (h' : Heap) (r : Nat) (props : List String)
    (fs : List (String × HVal))
    (hrun : parseHRec h query idProp md cd = (res, h'))
    (hwf : ∀ p ∈ h.cells, p.1 < h.next)
    (hread : h.read r = some (.objCell fs)) :
    h'.cells.take h.cells.length = h.cells ∧
      (heapRemoveProps h r props).1.cells.take h.cells.length = h.cells ∧
      (heapRemoveProps h r props).1.read (heapRemoveProps h r props).2 =
        some (.objCell (fs.filter (fun kv => !(props.contains kv.1)))) := by
  refine ⟨?_, ?_, ?_⟩
  · have hg := parseHFuel_grows idProp md (md + 1 - cd) query cd h
    have hrun' : parseHFuel idProp md (md + 1 - cd) query cd h = (res, h') := hrun
    rw [hrun'] at hg
    obtain ⟨⟨tail, ht⟩, -⟩ := hg
    rw [show h'.cells = (res, h').2.cells from rfl, ht]
    exact List.take_left h.cells tail
  · obtain ⟨⟨tail, ht⟩, -⟩ := heapRemoveProps_grows h r props
    rw [ht]
    exact List.take_left h.cells tail
  · have hfresh : h.cells.lookup h.next = none :=
      heap_lookup_fresh h.cells h.next hwf
    show (h.cells ++ [(h.next, _)]).lookup h.next = _
    rw [heap_lookup_append_right h.cells _ h.next hfresh]
    simp only [List.lookup, beq_self_eq_true]
    rw [hread, foldl_deleteKey_eq_filter]

/-- C10 witness: translating a `$nested` filter on a concrete two-cell
heap appends exactly the removeProps copy (one fresh cell holding the
sub-filter without $path) and leaves the two input cells unchanged. -/
theorem claim_C10_witness :
    (Heap.mk ((Heap.mk [(0, .objCell [("$nested", .ref 1)]),
          (1, .objCell [("$path", .str "p"), ("a", .num 1)])] 2).cells ++
        [(2, .objCell [("a", .num 1)])]) 3).cells.take
        (Heap.mk [(0, .objCell [("$nested", .ref 1)]),
          (1, .objCell [("$path", .str "p"), ("a", .num 1)])] 2).cells.length =
      (Heap.mk [(0, .objCell [("$nested", .ref 1)]),
        (1, .objCell [("$path", .str "p"), ("a", .num 1)])] 2).cells ∧
    (heapRemoveProps (Heap.mk [(0, .objCell [("$nested", .ref 1)]),
        (1, .objCell [("$path", .str "p"), ("a", .num 1)])] 2) 1 ["$path"]).1.cells.take
        (Heap.mk [(0, .objCell [("$nested", .ref 1)]),
          (1, .objCell [("$path", .str "p"), ("a", .num 1)])] 2).cells.length =
      (Heap.mk [(0, .objCell [("$nested", .ref 1)]),
        (1, .objCell [("$path", .str "p"), ("a", .num 1)])] 2).cells ∧
    (heapRemoveProps (Heap.mk [(0, .objCell [("$nested", .ref 1)]),
        (1, .objCell [("$path", .str "p"), ("a", .num 1)])] 2) 1 ["$path"]).1.read
        (heapRemoveProps (Heap.mk [(0, .objCell [("$nested", .ref 1)]),
          (1, .objCell [("$path", .str "p"), ("a", .num 1)])] 2) 1 ["$path"]).2 =
      some (.objCell ([("$path", HVal.str "p"), ("a", HVal.num 1)].filter
        (fun kv => !(["$path"].contains kv.1)))) := by
  exact claim_C10_no_input_mutation _ (.ref 0) "id" 50 0 _ _ 1 ["$path"] _
    rfl (by decide) rfl

end FeathersES
